import Mathlib

/-!
Verification development for the broadcast scheduler of the whatsapp-js
repository.  Two revisions of the scheduler module exist in the sources:

* `src/scheduler.js` — the fixed-pacing revision (60 s gap between messages,
  text-only sends); modelled in namespace `Fixed`.
* `src/unnamed/part_000` — the enhanced revision (randomized 10–30 s gap,
  text/image/mixed sends); modelled in namespace `Enhanced`.

Shared infrastructure models JavaScript values and idioms used by both:
decimal rendering of the id counter (`String(nextId++)`), `Map`
get/set/delete as an insertion-ordered association list, string truthiness,
`String.prototype.includes` and `String.prototype.trim`.
-/

/-! ### Decimal rendering of the id counter: models JS `String(n)` for a
natural-number counter.  Implemented with explicit fuel so that it reduces
by `rfl`/`decide`; `decimalFuelOk` shows the fuel is always sufficient. -/

/-- Character for one decimal digit (`0`–`9`). -/
def digitChar (d : Nat) : Char := Char.ofNat (48 + d)

/-- Little-endian decimal digits of `n`, with explicit fuel. -/
def decDigitsRev (fuel n : Nat) : List Nat :=
  match fuel with
  | 0 => [n % 10]
  | f + 1 => if n < 10 then [n] else n % 10 :: decDigitsRev f (n / 10)

/-- Decimal rendering of a natural number, as JS `String(n)` produces. -/
def natToString (n : Nat) : String :=
  String.mk ((decDigitsRev n n).reverse.map digitChar)

/-- Value of a little-endian digit list. -/
def ofDecRev : List Nat → Nat
  | [] => 0
  | d :: ds => d + 10 * ofDecRev ds

/-! ### JS string idioms -/

/-- Whether `l` starts with `sub` (character-wise). -/
def startsWithL : List Char → List Char → Bool
  | [], _ => true
  | _ :: _, [] => false
  | a :: as, b :: bs => a == b && startsWithL as bs

/-- Whether `sub` occurs contiguously inside `l`. -/
def containsSubL (sub : List Char) : List Char → Bool
  | [] => sub.isEmpty
  | c :: rest => startsWithL sub (c :: rest) || containsSubL sub rest

/-- Models JS `s.includes(sub)`. -/
def strIncludes (s sub : String) : Bool := containsSubL sub.data s.data

/-- Models the scheduler's rate-limit test `err?.message?.includes('429')`. -/
def has429 (msg : String) : Bool := strIncludes msg "429"

/-- Models JS string truthiness: a string is truthy iff nonempty. -/
def truthyStr (s : String) : Bool := !(s == "")

/-- Truthiness of an optional string (JS `undefined`/`null` are falsy). -/
def truthyOptStr : Option String → Bool
  | none => false
  | some s => truthyStr s

/-- Models JS `x || null` applied to an optional string. -/
def jsOrNull : Option String → Option String
  | none => none
  | some s => if s == "" then none else some s

/-- Models JS `String.prototype.trim`: strip leading and trailing whitespace. -/
def jsTrim (s : String) : String :=
  String.mk (((s.data.dropWhile Char.isWhitespace).reverse.dropWhile
    Char.isWhitespace).reverse)

/-! ### JS objects: the views returned by `getJob`/`listJobs` are modelled as
insertion-ordered field lists, so that presence or absence of a field (for
instance the `apiKey` credential) is directly expressible. -/

/-- JS values occurring in the scheduler's stored jobs and views.
`isoDate ms` stands for the string `new Date(ms).toISOString()`, and
`timerHandle` for the opaque object returned by `setTimeout` (referenced
here by the id of the job whose timer it is). -/
inductive JSVal where
  | str (s : String)
  | num (n : Int)
  | boolV (b : Bool)
  | nullV
  | strArr (elems : List String)
  | timerHandle (ref : String)
  | isoDate (ms : Int)
deriving DecidableEq, Repr

/-- A JS object, as an insertion-ordered association list of fields. -/
abbrev Obj := List (String × JSVal)

/-! ### JS `Map` operations over an insertion-ordered association list. -/

/-- Models `Map.prototype.get`. -/
def mapGet {α : Type} (m : List (String × α)) (k : String) : Option α :=
  (m.find? (fun kv => kv.1 == k)).map (fun kv => kv.2)

/-- Models `Map.prototype.set`: updates in place, or appends a new key. -/
def mapSet {α : Type} (m : List (String × α)) (k : String) (v : α) :
    List (String × α) :=
  if m.any (fun kv => kv.1 == k) then
    m.map (fun kv => if kv.1 == k then (k, v) else kv)
  else
    m ++ [(k, v)]

/-- Models `Map.prototype.delete`. -/
def mapDelete {α : Type} (m : List (String × α)) (k : String) :
    List (String × α) :=
  m.filter (fun kv => !(kv.1 == k))


/-! ### Broadcast requests, dispatch events and pacing constants -/

/-- The request object passed to `scheduleBroadcast`.  The fixed-pacing
revision destructures only the first five fields; the enhanced revision
additionally reads `imageUrl` and `hasImage` (absent fields model as
`none` / `false`). -/
structure Params where
  groupIds : List String
  message : String
  runAtMs : Int
  apiKey : String
  phoneNumber : String
  imageUrl : Option String
  hasImage : Bool
deriving DecidableEq, Repr

/-- Which delivery-client send variant a dispatch iteration invokes. -/
inductive SendKind where
  | text
  | image
  | mixed
deriving DecidableEq, Repr

/-- Observable events of one dispatch run: a delivery attempt (one awaited
send call to the delivery client) or an awaited `setTimeout` sleep. -/
inductive Event where
  | attempt (kind : SendKind) (dest : String)
  | sleep (ms : Nat)
deriving DecidableEq, Repr

/-- The destinations attempted by a trace, in order. -/
def attemptsOf (tr : List Event) : List String :=
  tr.filterMap (fun e =>
    match e with
    | Event.attempt _ d => some d
    | Event.sleep _ => none)

/-- Standard inter-message pacing delay of the fixed revision (60 s). -/
def paceMsFixed : Nat := 60000

/-- Extended rate-limit backoff delay, both revisions (2 min). -/
def backoffMs : Nat := 120000

namespace Fixed

/-- Environment a dispatch run observes from the delivery client.
`statusResult` is the outcome of `await wasenderInstance.checkDeviceStatus()`:
an exception (which the outer `catch` absorbs — the injection point for an
unexpected top-level fault), a falsy response (`none`), or a response whose
`connected` flag has the given truthiness.  `sendResult i` is the outcome of
the `await wasenderInstance.sendMessageToGroup(...)` call in iteration `i`:
normal return (the result is unused by this revision) or a thrown error with
the given `message` string. -/
structure DispatchEnv where
  statusResult : Except String (Option Bool)
  sendResult : Nat → Except String Unit

/-- The `for (const groupId of groupIds)` loop of `src/scheduler.js`
(lines 34–53).  `all` is the full `groupIds` list (the loop consults
`groupIds.indexOf(groupId)` and `groupIds.length` on it), the last two
arguments are the remaining destinations and the current iteration index.
On success the 60 s pacing sleep runs when `indexOf` of the current
destination is below `length - 1`; on a thrown failure the `catch` block
sleeps 2 min iff the error message contains "429". -/
def sendLoop (env : DispatchEnv) (all : List String) :
    List String → Nat → List Event
  | [], _ => []
  | g :: gs, i =>
    match env.sendResult i with
    | Except.ok _ =>
      Event.attempt SendKind.text g ::
        ((if List.indexOf g all < all.length - 1
            then [Event.sleep paceMsFixed] else []) ++
          sendLoop env all gs (i + 1))
    | Except.error m =>
      Event.attempt SendKind.text g ::
        ((if has429 m then [Event.sleep backoffMs] else []) ++
          sendLoop env all gs (i + 1))

/-- A job record as stored in the `scheduledJobs` map by `src/scheduler.js`
line 62 (field order of the object literal).  `timeout` holds the timer
handle, referenced here by the id of the job whose timer it is. -/
structure StoredJob where
  id : String
  runAtMs : Int
  groupIds : List String
  message : String
  timeout : String
  apiKey : String
  phoneNumber : String
deriving DecidableEq, Repr

/-- The in-memory `scheduledJobs` map. -/
abbrev JobMap := List (String × StoredJob)

/-- The body of the `setTimeout` callback of `src/scheduler.js` lines 17–59:
check the connection status (aborting, with a registry delete, when the
response is falsy or not connected), otherwise run the send loop; the
`finally` clause deletes the job from the registry on every path.  Returns
the event trace and the resulting registry map. -/
def timeoutBody (env : DispatchEnv) (p : Params) (id : String)
    (jobs : JobMap) : List Event × JobMap :=
  match env.statusResult with
  | Except.error _ => ([], mapDelete jobs id)
  | Except.ok none => ([], mapDelete (mapDelete jobs id) id)
  | Except.ok (some conn) =>
    if conn then (sendLoop env p.groupIds p.groupIds 0, mapDelete jobs id)
    else ([], mapDelete (mapDelete jobs id) id)

/-- An armed `setTimeout` timer: the id of the job it belongs to, the delay
it was armed with, and the request captured by the callback's closure. -/
structure Timer where
  jobId : String
  delayMs : Int
  params : Params
deriving DecidableEq, Repr

/-- Module-level state of `src/scheduler.js`: the `scheduledJobs` map, the
`nextId` counter, and the set of armed (not yet fired, not cleared) timers. -/
structure SysState where
  scheduledJobs : JobMap
  nextId : Nat
  timers : List Timer
deriving DecidableEq, Repr

/-- State at module load: empty map, `nextId = 1`, no timers. -/
def initialState : SysState :=
  { scheduledJobs := [], nextId := 1, timers := [] }

/-- The `{ id, runAtMs }` object returned by `scheduleBroadcast`. -/
structure Handle where
  id : String
  runAtMs : Int
deriving DecidableEq, Repr

/-- `scheduleBroadcast` of `src/scheduler.js` lines 7–64: compute
`delay = Math.max(0, runAtMs - now)`, allocate `id = String(nextId++)`,
arm the timer, store the job record, and return `{ id, runAtMs }`. -/
def scheduleBroadcast (p : Params) (now : Int) (st : SysState) :
    Handle × SysState :=
  let delay := max 0 (p.runAtMs - now)
  let id := natToString st.nextId
  let job : StoredJob :=
    { id := id, runAtMs := p.runAtMs, groupIds := p.groupIds,
      message := p.message, timeout := id, apiKey := p.apiKey,
      phoneNumber := p.phoneNumber }
  ({ id := id, runAtMs := p.runAtMs },
   { scheduledJobs := mapSet st.scheduledJobs id job,
     nextId := st.nextId + 1,
     timers := st.timers ++ [{ jobId := id, delayMs := delay, params := p }] })

/-- `cancelJob` of `src/scheduler.js` lines 66–73: returns `false` when no
job is registered under `id`; otherwise clears the job's timer, deletes the
registry entry and returns `true`. -/
def cancelJob (st : SysState) (id : String) : Bool × SysState :=
  match mapGet st.scheduledJobs id with
  | none => (false, st)
  | some job =>
    (true,
     { st with
       timers := st.timers.filter (fun t => !(t.jobId == job.timeout)),
       scheduledJobs := mapDelete st.scheduledJobs id })

/-- The fields of a stored job, in object-literal order, as spread by
`{ ...job, ... }` and destructured by `listJobs`. -/
def jobFields (j : StoredJob) : Obj :=
  [("id", JSVal.str j.id), ("runAtMs", JSVal.num j.runAtMs),
   ("groupIds", JSVal.strArr j.groupIds), ("message", JSVal.str j.message),
   ("timeout", JSVal.timerHandle j.timeout), ("apiKey", JSVal.str j.apiKey),
   ("phoneNumber", JSVal.str j.phoneNumber)]

/-- `getJob` of `src/scheduler.js` lines 83–91: `{ ...job, runAt: ...,
status: 'scheduled' }` — the spread copies every stored field, including
`timeout` and `apiKey`. -/
def getJob (st : SysState) (id : String) : Option Obj :=
  (mapGet st.scheduledJobs id).map (fun j =>
    jobFields j ++
      [("runAt", JSVal.isoDate j.runAtMs), ("status", JSVal.str "scheduled")])

/-- One `listJobs` entry: `({ timeout, apiKey, phoneNumber, ...rest }) =>
({ ...rest, runAt: ..., status: 'scheduled' })` (lines 75–81). -/
def listViewOf (j : StoredJob) : Obj :=
  ((jobFields j).filter (fun kv =>
      !(kv.1 == "timeout" || kv.1 == "apiKey" || kv.1 == "phoneNumber"))) ++
    [("runAt", JSVal.isoDate j.runAtMs), ("status", JSVal.str "scheduled")]

/-- `listJobs` of `src/scheduler.js` lines 75–81, over the map's values in
insertion order. -/
def listJobs (st : SysState) : List Obj :=
  (st.scheduledJobs.map Prod.snd).map listViewOf

/-- Trace-level observations of the scheduler: a handle returned by
`scheduleBroadcast`, or a tagged dispatch event of a fired job. -/
inductive Out where
  | scheduled (id : String) (runAtMs : Int)
  | attempted (jobId : String) (kind : SendKind) (dest : String)
  | slept (jobId : String) (ms : Nat)
deriving DecidableEq, Repr

/-- Tag a dispatch event with the id of the job being dispatched. -/
def tagEvent (id : String) (e : Event) : Out :=
  match e with
  | Event.attempt k d => Out.attempted id k d
  | Event.sleep ms => Out.slept id ms

/-- External stimuli of the scheduler module: an API call to
`scheduleBroadcast` or `cancelJob`, or the cooperative runtime firing an
armed timer (which runs its callback to completion; the delivery client's
behaviour during that run is the attached environment). -/
inductive Act where
  | schedule (p : Params) (now : Int)
  | cancel (id : String)
  | fire (id : String) (env : DispatchEnv)

/-- One step of the scheduler under a stimulus. -/
def step (st : SysState) (a : Act) : SysState × List Out :=
  match a with
  | Act.schedule p now =>
    let r := scheduleBroadcast p now st
    (r.2, [Out.scheduled r.1.id r.1.runAtMs])
  | Act.cancel id => ((cancelJob st id).2, [])
  | Act.fire id env =>
    match st.timers.find? (fun t => t.jobId == id) with
    | none => (st, [])
    | some t =>
      let r := timeoutBody env t.params id st.scheduledJobs
      let st' : SysState :=
        { scheduledJobs := r.2, nextId := st.nextId,
          timers := st.timers.filter (fun u => !(u.jobId == id)) }
      (st', r.1.map (tagEvent id))

/-- Run a sequence of stimuli, collecting the observations. -/
def runActs (st : SysState) : List Act → SysState × List Out
  | [] => (st, [])
  | a :: as =>
    let r := step st a
    let r2 := runActs r.1 as
    (r2.1, r.2 ++ r2.2)

end Fixed

namespace Enhanced

/-- Environment a dispatch run of the enhanced revision observes.
`statusResult` as in the fixed revision.  `sendResult i` is the outcome of
the awaited send call of iteration `i`: a normal return whose
`sendResult && sendResult.success` truthiness is the carried boolean
(used only for logging), or a thrown error with the given message.
`randFloor i` is the value `Math.floor(Math.random() * (30000 - 10000 + 1))`
sampled for the pacing gap after iteration `i`; the float semantics pin it
to `0 ≤ randFloor i ≤ 20000`, which theorems take as a hypothesis where
they need it. -/
structure DispatchEnv where
  statusResult : Except String (Option Bool)
  sendResult : Nat → Except String Bool
  randFloor : Nat → Nat

/-- Content-shape dispatch of `src/unnamed/part_000` lines 51–63: mixed when
`hasImage && imageUrl && message && message.trim()`, image-only when
`hasImage && imageUrl`, text otherwise. -/
def sendKindOf (p : Params) : SendKind :=
  if p.hasImage && truthyOptStr p.imageUrl && truthyStr p.message &&
      truthyStr (jsTrim p.message) then SendKind.mixed
  else if p.hasImage && truthyOptStr p.imageUrl then SendKind.image
  else SendKind.text

/-- The `for (let i = 0; i < groupIds.length; i++)` loop of
`src/unnamed/part_000` lines 43–88.  `n` is `groupIds.length`; the last two
arguments are the remaining destinations and the current index `i`.  A
returned failure (`success: false`) is only logged; the pacing sleep of
`randFloor i + 10000` ms runs whenever `i < n - 1`.  A thrown failure skips
the pacing; the `catch` block sleeps 2 min iff the message contains "429". -/
def sendLoop (env : DispatchEnv) (k : SendKind) (n : Nat) :
    List String → Nat → List Event
  | [], _ => []
  | g :: gs, i =>
    match env.sendResult i with
    | Except.ok _ =>
      Event.attempt k g ::
        ((if i < n - 1 then [Event.sleep (env.randFloor i + 10000)] else [])
          ++ sendLoop env k n gs (i + 1))
    | Except.error m =>
      Event.attempt k g ::
        ((if has429 m then [Event.sleep backoffMs] else []) ++
          sendLoop env k n gs (i + 1))

/-- A job record as stored by `src/unnamed/part_000` lines 99–109 (object
literal field order, with `imageUrl: imageUrl || null` and
`hasImage: hasImage || false`). -/
structure StoredJob where
  id : String
  runAtMs : Int
  groupIds : List String
  message : String
  timeout : String
  apiKey : String
  phoneNumber : String
  imageUrl : Option String
  hasImage : Bool
deriving DecidableEq, Repr

/-- The in-memory `scheduledJobs` map of the enhanced revision. -/
abbrev JobMap := List (String × StoredJob)

/-- The body of the `setTimeout` callback of `src/unnamed/part_000`
lines 23–96; structure as in the fixed revision, with the send variant
chosen from the captured request's content shape. -/
def timeoutBody (env : DispatchEnv) (p : Params) (id : String)
    (jobs : JobMap) : List Event × JobMap :=
  match env.statusResult with
  | Except.error _ => ([], mapDelete jobs id)
  | Except.ok none => ([], mapDelete (mapDelete jobs id) id)
  | Except.ok (some conn) =>
    if conn then
      (sendLoop env (sendKindOf p) p.groupIds.length p.groupIds 0,
       mapDelete jobs id)
    else ([], mapDelete (mapDelete jobs id) id)

/-- An armed timer of the enhanced revision. -/
structure Timer where
  jobId : String
  delayMs : Int
  params : Params
deriving DecidableEq, Repr

/-- Module-level state of `src/unnamed/part_000`. -/
structure SysState where
  scheduledJobs : JobMap
  nextId : Nat
  timers : List Timer
deriving DecidableEq, Repr

/-- State at module load. -/
def initialState : SysState :=
  { scheduledJobs := [], nextId := 1, timers := [] }

/-- The `{ id, runAtMs }` object returned by `scheduleBroadcast`. -/
structure Handle where
  id : String
  runAtMs : Int
deriving DecidableEq, Repr

/-- `scheduleBroadcast` of `src/unnamed/part_000` lines 7–112. -/
def scheduleBroadcast (p : Params) (now : Int) (st : SysState) :
    Handle × SysState :=
  let delay := max 0 (p.runAtMs - now)
  let id := natToString st.nextId
  let job : StoredJob :=
    { id := id, runAtMs := p.runAtMs, groupIds := p.groupIds,
      message := p.message, timeout := id, apiKey := p.apiKey,
      phoneNumber := p.phoneNumber, imageUrl := jsOrNull p.imageUrl,
      hasImage := p.hasImage }
  ({ id := id, runAtMs := p.runAtMs },
   { scheduledJobs := mapSet st.scheduledJobs id job,
     nextId := st.nextId + 1,
     timers := st.timers ++ [{ jobId := id, delayMs := delay, params := p }] })

/-- `cancelJob` of `src/unnamed/part_000` lines 114–122. -/
def cancelJob (st : SysState) (id : String) : Bool × SysState :=
  match mapGet st.scheduledJobs id with
  | none => (false, st)
  | some job =>
    (true,
     { st with
       timers := st.timers.filter (fun t => !(t.jobId == job.timeout)),
       scheduledJobs := mapDelete st.scheduledJobs id })

/-- JS value of a nullable string field. -/
def optStrVal : Option String → JSVal
  | none => JSVal.nullV
  | some s => JSVal.str s

/-- The fields of a stored job, in object-literal order. -/
def jobFields (j : StoredJob) : Obj :=
  [("id", JSVal.str j.id), ("runAtMs", JSVal.num j.runAtMs),
   ("groupIds", JSVal.strArr j.groupIds), ("message", JSVal.str j.message),
   ("timeout", JSVal.timerHandle j.timeout), ("apiKey", JSVal.str j.apiKey),
   ("phoneNumber", JSVal.str j.phoneNumber),
   ("imageUrl", optStrVal j.imageUrl), ("hasImage", JSVal.boolV j.hasImage)]

/-- `getJob` of `src/unnamed/part_000` lines 132–146: the view is built
field by field — `timeout`, `apiKey` and `phoneNumber` are not copied. -/
def getJob (st : SysState) (id : String) : Option Obj :=
  (mapGet st.scheduledJobs id).map (fun j =>
    [("id", JSVal.str j.id), ("runAtMs", JSVal.num j.runAtMs),
     ("groupIds", JSVal.strArr j.groupIds), ("message", JSVal.str j.message),
     ("runAt", JSVal.isoDate j.runAtMs), ("status", JSVal.str "scheduled"),
     ("hasImage", JSVal.boolV j.hasImage),
     ("imageUrl", optStrVal j.imageUrl)])

/-- One `listJobs` entry of `src/unnamed/part_000` lines 124–130: the rest
spread keeps `imageUrl` and `hasImage`. -/
def listViewOf (j : StoredJob) : Obj :=
  ((jobFields j).filter (fun kv =>
      !(kv.1 == "timeout" || kv.1 == "apiKey" || kv.1 == "phoneNumber"))) ++
    [("runAt", JSVal.isoDate j.runAtMs), ("status", JSVal.str "scheduled")]

/-- `listJobs` of `src/unnamed/part_000` lines 124–130. -/
def listJobs (st : SysState) : List Obj :=
  (st.scheduledJobs.map Prod.snd).map listViewOf

end Enhanced

/-! ### Derived notions and concrete fixtures used by the claims -/

/-- The shape of a fixed-revision dispatch trace when the status check
reports connected and every send succeeds: the destinations in order, with
one pacing sleep in each gap and none after the last. -/
def Fixed.successTrace : List String → List Event
  | [] => []
  | g :: gs =>
    Event.attempt SendKind.text g ::
      (if gs.isEmpty then []
       else Event.sleep paceMsFixed :: Fixed.successTrace gs)

/-- The shape of an enhanced-revision dispatch trace when the status check
reports connected and every send succeeds, starting at index `i`: the
destinations in order with the sampled pacing sleep in each gap. -/
def Enhanced.successTrace (env : Enhanced.DispatchEnv) (k : SendKind) :
    List String → Nat → List Event
  | [], _ => []
  | g :: gs, i =>
    Event.attempt k g ::
      (if gs.isEmpty then []
       else Event.sleep (env.randFloor i + 10000) ::
         Enhanced.successTrace env k gs (i + 1))

/-- Number of `scheduleBroadcast` calls in a stimulus sequence. -/
def Fixed.schedCount : List Fixed.Act → Nat
  | [] => 0
  | Fixed.Act.schedule _ _ :: as => Fixed.schedCount as + 1
  | Fixed.Act.cancel _ :: as => Fixed.schedCount as
  | Fixed.Act.fire _ _ :: as => Fixed.schedCount as

/-- The job ids handed out by `scheduleBroadcast`, in order of assignment. -/
def Fixed.assignedIds (outs : List Fixed.Out) : List String :=
  outs.filterMap (fun o =>
    match o with
    | Fixed.Out.scheduled i _ => some i
    | Fixed.Out.attempted _ _ _ => none
    | Fixed.Out.slept _ _ => none)

/-- `len` consecutive decimal ids starting at `start`. -/
def countIds (start : Nat) : Nat → List String
  | 0 => []
  | len + 1 => natToString start :: countIds (start + 1) len

/-- Registry sanity: every registered key and armed timer carries an id
allocated by a counter value below `nextId`, and a stored job's timer
handle refers to its own key.  Holds in every reachable state. -/
def Fixed.GoodS (st : Fixed.SysState) : Prop :=
  (∀ e ∈ st.scheduledJobs,
    (∃ k, k < st.nextId ∧ e.1 = natToString k) ∧ e.2.timeout = e.1) ∧
  (∀ t ∈ st.timers, ∃ k, k < st.nextId ∧ t.jobId = natToString k)

/-- After a cancellation: no armed timer belongs to `id`, and `id` was
allocated below the current counter (so it can never be reissued). -/
def Fixed.Clean (id : String) (st : Fixed.SysState) : Prop :=
  (∀ t ∈ st.timers, t.jobId ≠ id) ∧
  (∃ k, k < st.nextId ∧ id = natToString k)

/-- Trace sanity: any job that has already produced a delivery attempt was
allocated below the counter, has no armed timer any more, and is no longer
registered. -/
def Fixed.Hist (st : Fixed.SysState) (outs : List Fixed.Out) : Prop :=
  ∀ id k d, Fixed.Out.attempted id k d ∈ outs →
    (∃ k2, k2 < st.nextId ∧ id = natToString k2) ∧
    (∀ t ∈ st.timers, t.jobId ≠ id) ∧
    mapGet st.scheduledJobs id = none

/-- A sample broadcast request (text-only, two destinations). -/
def pEx : Params :=
  { groupIds := ["g1", "g2"], message := "hello", runAtMs := 5000,
    apiKey := "secret-key", phoneNumber := "p1", imageUrl := none,
    hasImage := false }

/-- A sample request whose destination list repeats one group id. -/
def pDup : Params :=
  { groupIds := ["a", "a"], message := "hello", runAtMs := 5000,
    apiKey := "secret-key", phoneNumber := "p1", imageUrl := none,
    hasImage := false }

/-- The job record `scheduleBroadcast pEx` stores under id "1". -/
def Fixed.jobEx : Fixed.StoredJob :=
  { id := "1", runAtMs := 5000, groupIds := ["g1", "g2"], message := "hello",
    timeout := "1", apiKey := "secret-key", phoneNumber := "p1" }

/-- The job record `scheduleBroadcast pDup` stores under id "1". -/
def Fixed.jobDup : Fixed.StoredJob :=
  { id := "1", runAtMs := 5000, groupIds := ["a", "a"], message := "hello",
    timeout := "1", apiKey := "secret-key", phoneNumber := "p1" }

/-- Delivery client behaviour: connected, every send succeeds. -/
def Fixed.envAllOk : Fixed.DispatchEnv :=
  { statusResult := Except.ok (some true),
    sendResult := fun _ => Except.ok () }

/-- Delivery client behaviour: status check reports not connected. -/
def Fixed.envDisc : Fixed.DispatchEnv :=
  { statusResult := Except.ok (some false),
    sendResult := fun _ => Except.ok () }

/-- Delivery client behaviour: the first send throws a rate-limit error,
the rest succeed. -/
def Fixed.envFail429 : Fixed.DispatchEnv :=
  { statusResult := Except.ok (some true),
    sendResult := fun i =>
      if i == 0 then Except.error "Request failed with status code 429"
      else Except.ok () }

/-- Delivery client behaviour: the first send throws an ordinary error. -/
def Fixed.envFailPlain : Fixed.DispatchEnv :=
  { statusResult := Except.ok (some true),
    sendResult := fun i =>
      if i == 0 then Except.error "socket hang up" else Except.ok () }

/-- Enhanced-revision client behaviour: connected, every send succeeds,
pacing samples fixed at 5000. -/
def Enhanced.envAllOk : Enhanced.DispatchEnv :=
  { statusResult := Except.ok (some true),
    sendResult := fun _ => Except.ok true,
    randFloor := fun _ => 5000 }

/-- Enhanced-revision client behaviour: not connected. -/
def Enhanced.envDisc : Enhanced.DispatchEnv :=
  { statusResult := Except.ok (some false),
    sendResult := fun _ => Except.ok true,
    randFloor := fun _ => 5000 }

/-- Enhanced-revision client behaviour: first send throws a rate-limit
error, the rest succeed. -/
def Enhanced.envFail429 : Enhanced.DispatchEnv :=
  { statusResult := Except.ok (some true),
    sendResult := fun i =>
      if i == 0 then Except.error "Request failed with status code 429"
      else Except.ok true,
    randFloor := fun _ => 5000 }

/-- The job record `Enhanced.scheduleBroadcast pEx` stores under id "1". -/
def Enhanced.jobEx : Enhanced.StoredJob :=
  { id := "1", runAtMs := 5000, groupIds := ["g1", "g2"], message := "hello",
    timeout := "1", apiKey := "secret-key", phoneNumber := "p1",
    imageUrl := none, hasImage := false }

/-! ## Helper lemmas -/

theorem ofDecRev_decDigitsRev : ∀ fuel n, n ≤ fuel → ofDecRev (decDigitsRev fuel n) = n := by
  intro fuel
  induction fuel with
  | zero =>
    intro n hn
    interval_cases n
    simp [decDigitsRev, ofDecRev]
  | succ f ih =>
    intro n hn
    by_cases h : n < 10
    · simp [decDigitsRev, h, ofDecRev]
    · have h10 : 10 ≤ n := Nat.le_of_not_lt h
      have hpos : 0 < n := Nat.lt_of_lt_of_le (by norm_num) h10
      have hdiv : n / 10 < n := Nat.div_lt_self hpos (by norm_num)
      have hfuel : n / 10 ≤ f := by omega
      simp only [decDigitsRev, h, if_false, ofDecRev]
      rw [ih (n / 10) hfuel]
      exact Nat.mod_add_div n 10

theorem decDigitsRev_lt_ten : ∀ fuel n, ∀ d ∈ decDigitsRev fuel n, d < 10 := by
  intro fuel
  induction fuel with
  | zero =>
    intro n d hd
    simp only [decDigitsRev, List.mem_singleton] at hd
    subst hd
    exact Nat.mod_lt _ (by norm_num)
  | succ f ih =>
    intro n d hd
    by_cases h : n < 10
    · simp only [decDigitsRev, h, if_true, List.mem_singleton] at hd
      omega
    · simp only [decDigitsRev, h, if_false, List.mem_cons] at hd
      rcases hd with hd | hd
      · subst hd
        exact Nat.mod_lt _ (by norm_num)
      · exact ih (n / 10) d hd

theorem digitChar_decode : ∀ d, d < 10 → (digitChar d).toNat - 48 = d := by decide

theorem map_decode_digits : ∀ L : List Nat, (∀ d ∈ L, d < 10) →
    (L.map digitChar).map (fun c => c.toNat - 48) = L := by
  intro L
  induction L with
  | nil => intro _; rfl
  | cons d ds ih =>
    intro h
    simp only [List.map_cons, List.cons.injEq]
    constructor
    · exact digitChar_decode d (h d (List.mem_cons_self d ds))
    · exact ih (fun e he => h e (List.mem_cons_of_mem d he))

theorem natToString_injective : Function.Injective natToString := by
  intro m n h
  have hdata : ((decDigitsRev m m).reverse.map digitChar) =
      ((decDigitsRev n n).reverse.map digitChar) := by
    injection h
  have hm : ∀ d ∈ (decDigitsRev m m).reverse, d < 10 := by
    intro d hd
    exact decDigitsRev_lt_ten m m d (List.mem_reverse.mp hd)
  have hn : ∀ d ∈ (decDigitsRev n n).reverse, d < 10 := by
    intro d hd
    exact decDigitsRev_lt_ten n n d (List.mem_reverse.mp hd)
  have hrev : (decDigitsRev m m).reverse = (decDigitsRev n n).reverse := by
    have := congrArg (List.map (fun c : Char => c.toNat - 48)) hdata
    rwa [map_decode_digits _ hm, map_decode_digits _ hn] at this
  have hdigits : decDigitsRev m m = decDigitsRev n n :=
    List.reverse_injective hrev
  have := congrArg ofDecRev hdigits
  rwa [ofDecRev_decDigitsRev m m le_rfl, ofDecRev_decDigitsRev n n le_rfl] at this

theorem mapGet_nil {α : Type} (k : String) :
    mapGet ([] : List (String × α)) k = none := rfl

theorem mapGet_cons {α : Type} (x : String × α) (m : List (String × α))
    (k : String) :
    mapGet (x :: m) k = if x.1 == k then some x.2 else mapGet m k := by
  unfold mapGet
  cases hpa : (x.1 == k) <;> simp [List.find?, hpa]

theorem mapGet_mapDelete {α : Type} (m : List (String × α)) (k k' : String) :
    mapGet (mapDelete m k) k' = if k' = k then none else mapGet m k' := by
  induction m with
  | nil => by_cases h : k' = k <;> simp [mapDelete, mapGet_nil, h]
  | cons x m ih =>
    simp only [mapDelete, List.filter_cons] at ih ⊢
    by_cases hx : x.1 = k
    · have hb : (!(x.1 == k)) = false := by simp [hx]
      rw [hb]
      simp only [Bool.false_eq_true, if_false]
      rw [ih]
      by_cases hk' : k' = k
      · simp [hk']
      · have hxk' : (x.1 == k') = false := by
          simp only [beq_eq_false_iff_ne, ne_eq]
          intro hh
          exact hk' (hh.symm.trans hx)
        rw [if_neg hk', if_neg hk', mapGet_cons, hxk']
        simp
    · have hb : (!(x.1 == k)) = true := by simp [hx]
      rw [hb]
      simp only [if_true]
      rw [mapGet_cons, mapGet_cons]
      by_cases hxk' : (x.1 == k') = true
      · have hk'k : ¬ k' = k := by
          intro hh
          exact hx ((beq_iff_eq.mp hxk').trans hh)
        rw [if_neg hk'k, if_pos hxk', if_pos hxk']
      · rw [if_neg hxk', if_neg hxk', ih]

theorem mapGet_mapDelete_self {α : Type} (m : List (String × α)) (k : String) :
    mapGet (mapDelete m k) k = none := by
  simp [mapGet_mapDelete]

theorem mem_mapSet {α : Type} {m : List (String × α)} {k : String} {v : α}
    {p : String × α} (h : p ∈ mapSet m k v) : p ∈ m ∨ p = (k, v) := by
  unfold mapSet at h
  by_cases hc : (m.any fun kv => kv.1 == k) = true
  · rw [if_pos hc] at h
    rcases List.mem_map.mp h with ⟨q, hq, hfq⟩
    by_cases hqk : (q.1 == k) = true
    · right
      rw [← hfq, if_pos hqk]
    · left
      rw [← hfq, if_neg hqk]
      exact hq
  · rw [if_neg hc] at h
    rcases List.mem_append.mp h with h | h
    · exact Or.inl h
    · exact Or.inr (List.mem_singleton.mp h)

theorem mapGet_update_ne {α : Type} (m : List (String × α)) (k k' : String)
    (v : α) (h : k' ≠ k) :
    mapGet (m.map fun kv => if kv.1 == k then (k, v) else kv) k' =
      mapGet m k' := by
  induction m with
  | nil => rfl
  | cons x m ih =>
    rw [List.map_cons, mapGet_cons, mapGet_cons]
    by_cases hx : (x.1 == k) = true
    · have hkk' : ((k : String) == k') = false := by
        simp only [beq_eq_false_iff_ne, ne_eq]
        intro hh
        exact h hh.symm
      have hxk' : (x.1 == k') = false := by
        simp only [beq_eq_false_iff_ne, ne_eq]
        intro hh
        exact h (hh.symm.trans (beq_iff_eq.mp hx))
      rw [if_pos hx]
      simp only [hkk', hxk', Bool.false_eq_true, if_false]
      exact ih
    · rw [if_neg hx]
      by_cases hxk' : (x.1 == k') = true
      · rw [if_pos hxk', if_pos hxk']
      · rw [if_neg hxk', if_neg hxk']
        exact ih

theorem mapGet_append_single_ne {α : Type} (m : List (String × α))
    (k k' : String) (v : α) (h : k' ≠ k) :
    mapGet (m ++ [(k, v)]) k' = mapGet m k' := by
  induction m with
  | nil =>
    have hkk' : ((k : String) == k') = false := by
      simp only [beq_eq_false_iff_ne, ne_eq]
      intro hh
      exact h hh.symm
    simp [mapGet_cons, mapGet_nil, hkk']
  | cons x m ih =>
    rw [List.cons_append, mapGet_cons, mapGet_cons]
    by_cases hxk' : (x.1 == k') = true
    · rw [if_pos hxk', if_pos hxk']
    · rw [if_neg hxk', if_neg hxk']
      exact ih

theorem mapGet_mapSet_ne {α : Type} (m : List (String × α)) (k k' : String)
    (v : α) (h : k' ≠ k) : mapGet (mapSet m k v) k' = mapGet m k' := by
  unfold mapSet
  by_cases hc : (m.any fun kv => kv.1 == k) = true
  · rw [if_pos hc]
    exact mapGet_update_ne m k k' v h
  · rw [if_neg hc]
    exact mapGet_append_single_ne m k k' v h

theorem mapGet_some_mem {α : Type} {m : List (String × α)} {k : String}
    {v : α} (h : mapGet m k = some v) : (k, v) ∈ m := by
  unfold mapGet at h
  rcases Option.map_eq_some'.mp h with ⟨kv, hfind, hv⟩
  have hmem := List.mem_of_find?_eq_some hfind
  have hpred := List.find?_some hfind
  have hk : kv.1 = k := by simpa using hpred
  have : kv = (k, v) := by
    cases kv
    simp only at hk hv
    simp [hk, hv]
  exact this ▸ hmem

theorem attemptsOf_cons_attempt (k : SendKind) (d : String) (tr : List Event) :
    attemptsOf (Event.attempt k d :: tr) = d :: attemptsOf tr := rfl

theorem attemptsOf_sleepIf_append (c : Prop) [Decidable c] (x : Nat)
    (tr : List Event) :
    attemptsOf ((if c then [Event.sleep x] else []) ++ tr) = attemptsOf tr := by
  by_cases h : c <;> simp [h, attemptsOf]

theorem Fixed.sendLoop_cons_ok (env : Fixed.DispatchEnv) (all : List String)
    (g : String) (gs : List String) (i : Nat)
    (h : env.sendResult i = Except.ok ()) :
    Fixed.sendLoop env all (g :: gs) i =
      Event.attempt SendKind.text g ::
        ((if List.indexOf g all < all.length - 1
            then [Event.sleep paceMsFixed] else []) ++
          Fixed.sendLoop env all gs (i + 1)) := by
  simp only [Fixed.sendLoop, h]

theorem Fixed.sendLoop_cons_err (env : Fixed.DispatchEnv) (all : List String)
    (g : String) (gs : List String) (i : Nat) (m : String)
    (h : env.sendResult i = Except.error m) :
    Fixed.sendLoop env all (g :: gs) i =
      Event.attempt SendKind.text g ::
        ((if has429 m then [Event.sleep backoffMs] else []) ++
          Fixed.sendLoop env all gs (i + 1)) := by
  simp only [Fixed.sendLoop, h]

theorem Fixed.attemptsOf_sendLoop (env : Fixed.DispatchEnv)
    (all : List String) :
    ∀ (rest : List String) (i : Nat),
      attemptsOf (Fixed.sendLoop env all rest i) = rest := by
  intro rest
  induction rest with
  | nil => intro i; rfl
  | cons g gs ih =>
    intro i
    cases hs : env.sendResult i with
    | ok u =>
      cases u
      rw [Fixed.sendLoop_cons_ok env all g gs i hs, attemptsOf_cons_attempt,
        attemptsOf_sleepIf_append, ih]
    | error m =>
      rw [Fixed.sendLoop_cons_err env all g gs i m hs, attemptsOf_cons_attempt,
        attemptsOf_sleepIf_append, ih]

theorem Enhanced.sendLoopE_cons_ok (env : Enhanced.DispatchEnv) (k : SendKind)
    (n : Nat) (g : String) (gs : List String) (i : Nat) (b : Bool)
    (h : env.sendResult i = Except.ok b) :
    Enhanced.sendLoop env k n (g :: gs) i =
      Event.attempt k g ::
        ((if i < n - 1 then [Event.sleep (env.randFloor i + 10000)] else [])
          ++ Enhanced.sendLoop env k n gs (i + 1)) := by
  simp only [Enhanced.sendLoop, h]

theorem Enhanced.sendLoopE_cons_err (env : Enhanced.DispatchEnv) (k : SendKind)
    (n : Nat) (g : String) (gs : List String) (i : Nat) (m : String)
    (h : env.sendResult i = Except.error m) :
    Enhanced.sendLoop env k n (g :: gs) i =
      Event.attempt k g ::
        ((if has429 m then [Event.sleep backoffMs] else []) ++
          Enhanced.sendLoop env k n gs (i + 1)) := by
  simp only [Enhanced.sendLoop, h]

theorem Enhanced.attemptsOf_sendLoopE (env : Enhanced.DispatchEnv)
    (k : SendKind) (n : Nat) :
    ∀ (rest : List String) (i : Nat),
      attemptsOf (Enhanced.sendLoop env k n rest i) = rest := by
  intro rest
  induction rest with
  | nil => intro i; rfl
  | cons g gs ih =>
    intro i
    cases hs : env.sendResult i with
    | ok b =>
      rw [Enhanced.sendLoopE_cons_ok env k n g gs i b hs,
        attemptsOf_cons_attempt, attemptsOf_sleepIf_append, ih]
    | error m =>
      rw [Enhanced.sendLoopE_cons_err env k n g gs i m hs,
        attemptsOf_cons_attempt, attemptsOf_sleepIf_append, ih]

theorem Fixed.mapGet_timeoutBody (env : Fixed.DispatchEnv) (p : Params)
    (id : String) (jobs : Fixed.JobMap) (id2 : String) :
    mapGet (Fixed.timeoutBody env p id jobs).2 id2 =
      if id2 = id then none else mapGet jobs id2 := by
  unfold Fixed.timeoutBody
  cases env.statusResult with
  | error e => simp [mapGet_mapDelete]
  | ok o =>
    cases o with
    | none =>
      simp only
      rw [mapGet_mapDelete, mapGet_mapDelete]
      by_cases h : id2 = id <;> simp [h]
    | some conn =>
      cases conn with
      | true => simp [mapGet_mapDelete]
      | false =>
        simp only [Bool.false_eq_true, if_false]
        rw [mapGet_mapDelete, mapGet_mapDelete]
        by_cases h : id2 = id <;> simp [h]

theorem Fixed.mem_timeoutBody_snd (env : Fixed.DispatchEnv) (p : Params)
    (id : String) (jobs : Fixed.JobMap) :
    ∀ e ∈ (Fixed.timeoutBody env p id jobs).2, e ∈ jobs := by
  intro e he
  unfold Fixed.timeoutBody at he
  cases henv : env.statusResult with
  | error m =>
    rw [henv] at he
    exact List.mem_of_mem_filter he
  | ok o =>
    rw [henv] at he
    cases o with
    | none => exact List.mem_of_mem_filter (List.mem_of_mem_filter he)
    | some conn =>
      cases conn with
      | true => exact List.mem_of_mem_filter he
      | false => exact List.mem_of_mem_filter (List.mem_of_mem_filter he)

theorem Enhanced.mapGet_timeoutBodyE (env : Enhanced.DispatchEnv) (p : Params)
    (id : String) (jobs : Enhanced.JobMap) (id2 : String) :
    mapGet (Enhanced.timeoutBody env p id jobs).2 id2 =
      if id2 = id then none else mapGet jobs id2 := by
  unfold Enhanced.timeoutBody
  cases env.statusResult with
  | error e => simp [mapGet_mapDelete]
  | ok o =>
    cases o with
    | none =>
      simp only
      rw [mapGet_mapDelete, mapGet_mapDelete]
      by_cases h : id2 = id <;> simp [h]
    | some conn =>
      cases conn with
      | true => simp [mapGet_mapDelete]
      | false =>
        simp only [Bool.false_eq_true, if_false]
        rw [mapGet_mapDelete, mapGet_mapDelete]
        by_cases h : id2 = id <;> simp [h]

/-- C8: however an activated job's dispatch run ends — status check threw
(the injected top-level fault), falsy status response, not connected, or
the send loop ran with any mix of successes and thrown failures — the
`finally` cleanup has removed the job's registry entry by the time the run
finishes, in both revisions. -/
theorem c8_cleanup_unconditional
    (envF : Fixed.DispatchEnv) (pF : Params) (idF : String)
    (jobsF : Fixed.JobMap) (envE : Enhanced.DispatchEnv) (pE : Params)
    (idE : String) (jobsE : Enhanced.JobMap) :
    mapGet (Fixed.timeoutBody envF pF idF jobsF).2 idF = none ∧
    mapGet (Enhanced.timeoutBody envE pE idE jobsE).2 idE = none := by
  constructor
  · rw [Fixed.mapGet_timeoutBody]
    simp
  · rw [Enhanced.mapGet_timeoutBodyE]
    simp

/-- C5: when the connection-status check reports not connected (falsy
response or a response whose `connected` flag is false), the dispatcher
attempts zero sends — the event trace is empty — and the job's registry
entry is still removed, in both revisions. -/
theorem c5_disconnected_aborts
    (envF : Fixed.DispatchEnv) (pF : Params) (idF : String)
    (jobsF : Fixed.JobMap) (envE : Enhanced.DispatchEnv) (pE : Params)
    (idE : String) (jobsE : Enhanced.JobMap)
    (hF : envF.statusResult = Except.ok none ∨
      envF.statusResult = Except.ok (some false))
    (hE : envE.statusResult = Except.ok none ∨
      envE.statusResult = Except.ok (some false)) :
    (Fixed.timeoutBody envF pF idF jobsF).1 = [] ∧
    mapGet (Fixed.timeoutBody envF pF idF jobsF).2 idF = none ∧
    (Enhanced.timeoutBody envE pE idE jobsE).1 = [] ∧
    mapGet (Enhanced.timeoutBody envE pE idE jobsE).2 idE = none := by
  refine ⟨?_, ?_, ?_, ?_⟩
  · unfold Fixed.timeoutBody
    rcases hF with h | h <;> rw [h] <;> rfl
  · rw [Fixed.mapGet_timeoutBody]
    simp
  · unfold Enhanced.timeoutBody
    rcases hE with h | h <;> rw [h] <;> rfl
  · rw [Enhanced.mapGet_timeoutBodyE]
    simp

/-- Witness for C5 at a concrete disconnected environment. -/
theorem c5_disconnected_aborts_witness :
    (Fixed.timeoutBody Fixed.envDisc pEx "1" [("1", Fixed.jobEx)]).1 = [] ∧
    mapGet (Fixed.timeoutBody Fixed.envDisc pEx "1"
      [("1", Fixed.jobEx)]).2 "1" = none ∧
    (Enhanced.timeoutBody Enhanced.envDisc pEx "1"
      [("1", Enhanced.jobEx)]).1 = [] ∧
    mapGet (Enhanced.timeoutBody Enhanced.envDisc pEx "1"
      [("1", Enhanced.jobEx)]).2 "1" = none :=
  c5_disconnected_aborts Fixed.envDisc pEx "1" [("1", Fixed.jobEx)]
    Enhanced.envDisc pEx "1" [("1", Enhanced.jobEx)] (Or.inr rfl) (Or.inr rfl)

/-- C7: when a send throws, the failure is absorbed by the `catch` block and
the loop continues with the next destination (the attempts of the whole
remaining run are still exactly the remaining destinations, in order, each
attempted once — so no failure aborts the batch and a failed destination is
never re-sent); an extended backoff sleep runs before the next destination
if and only if the error message contains "429", and that backoff (2 min)
is longer than the standard pace (60 s fixed; at most 30 s enhanced).
Stated for both revisions. -/
theorem c7_failed_send_recorded_and_backoff
    (envF : Fixed.DispatchEnv) (all : List String) (g : String)
    (gs : List String) (i : Nat) (m : String) (envE : Enhanced.DispatchEnv)
    (k : SendKind) (n : Nat) (g2 : String) (gs2 : List String) (i2 : Nat)
    (m2 : String) (hF : envF.sendResult i = Except.error m)
    (hE : envE.sendResult i2 = Except.error m2)
    (hrand : envE.randFloor i2 ≤ 20000) :
    (Fixed.sendLoop envF all (g :: gs) i =
      Event.attempt SendKind.text g ::
        ((if has429 m then [Event.sleep backoffMs] else []) ++
          Fixed.sendLoop envF all gs (i + 1))) ∧
    attemptsOf (Fixed.sendLoop envF all (g :: gs) i) = g :: gs ∧
    paceMsFixed < backoffMs ∧
    (Enhanced.sendLoop envE k n (g2 :: gs2) i2 =
      Event.attempt k g2 ::
        ((if has429 m2 then [Event.sleep backoffMs] else []) ++
          Enhanced.sendLoop envE k n gs2 (i2 + 1))) ∧
    attemptsOf (Enhanced.sendLoop envE k n (g2 :: gs2) i2) = g2 :: gs2 ∧
    envE.randFloor i2 + 10000 < backoffMs := by
  refine ⟨Fixed.sendLoop_cons_err envF all g gs i m hF,
    Fixed.attemptsOf_sendLoop envF all (g :: gs) i, by decide,
    Enhanced.sendLoopE_cons_err envE k n g2 gs2 i2 m2 hE,
    Enhanced.attemptsOf_sendLoopE envE k n (g2 :: gs2) i2, ?_⟩
  unfold backoffMs
  omega

/-- Witness for C7: first send throws a 429 error in both revisions. -/
theorem c7_failed_send_recorded_and_backoff_witness :
    (Fixed.sendLoop Fixed.envFail429 ["a", "b"] ["a", "b"] 0 =
      Event.attempt SendKind.text "a" ::
        ((if has429 "Request failed with status code 429"
            then [Event.sleep backoffMs] else []) ++
          Fixed.sendLoop Fixed.envFail429 ["a", "b"] ["b"] 1)) ∧
    attemptsOf (Fixed.sendLoop Fixed.envFail429 ["a", "b"] ["a", "b"] 0) =
      ["a", "b"] ∧
    Enhanced.envFail429.randFloor 0 + 10000 < backoffMs :=
  ⟨(c7_failed_send_recorded_and_backoff Fixed.envFail429 ["a", "b"] "a" ["b"]
      0 "Request failed with status code 429" Enhanced.envFail429
      SendKind.text 2 "a" ["b"] 0 "Request failed with status code 429" rfl
      rfl (by decide)).1,
   (c7_failed_send_recorded_and_backoff Fixed.envFail429 ["a", "b"] "a" ["b"]
      0 "Request failed with status code 429" Enhanced.envFail429
      SendKind.text 2 "a" ["b"] 0 "Request failed with status code 429" rfl
      rfl (by decide)).2.1,
   (c7_failed_send_recorded_and_backoff Fixed.envFail429 ["a", "b"] "a" ["b"]
      0 "Request failed with status code 429" Enhanced.envFail429
      SendKind.text 2 "a" ["b"] 0 "Request failed with status code 429" rfl
      rfl (by decide)).2.2.2.2.2⟩

/-- C10: in the fixed-pacing revision's dispatch loop the standard 60 s
pacing sleep is reached only on the success path; when a send throws with
an error message not containing "429", the loop proceeds directly to the
next destination with no sleep at all. -/
theorem c10_no_pacing_after_plain_failure
    (env : Fixed.DispatchEnv) (all : List String) (g : String)
    (gs : List String) (i : Nat) (m : String) (env2 : Fixed.DispatchEnv)
    (all2 : List String) (g2 : String) (gs2 : List String) (i2 : Nat)
    (hfail : env.sendResult i = Except.error m) (h429 : has429 m = false)
    (hok : env2.sendResult i2 = Except.ok ()) :
    Fixed.sendLoop env all (g :: gs) i =
      Event.attempt SendKind.text g :: Fixed.sendLoop env all gs (i + 1) ∧
    Fixed.sendLoop env2 all2 (g2 :: gs2) i2 =
      Event.attempt SendKind.text g2 ::
        ((if List.indexOf g2 all2 < all2.length - 1
            then [Event.sleep paceMsFixed] else []) ++
          Fixed.sendLoop env2 all2 gs2 (i2 + 1)) := by
  constructor
  · rw [Fixed.sendLoop_cons_err env all g gs i m hfail, h429]
    simp
  · exact Fixed.sendLoop_cons_ok env2 all2 g2 gs2 i2 hok

/-- Witness for C10: a non-429 failure on the first of two destinations
produces two adjacent attempts with no sleep between them. -/
theorem c10_no_pacing_after_plain_failure_witness :
    Fixed.sendLoop Fixed.envFailPlain ["a", "b"] ["a", "b"] 0 =
      Event.attempt SendKind.text "a" ::
        Fixed.sendLoop Fixed.envFailPlain ["a", "b"] ["b"] 1 :=
  (c10_no_pacing_after_plain_failure Fixed.envFailPlain ["a", "b"] "a" ["b"]
    0 "socket hang up" Fixed.envAllOk ["a", "b"] "a" ["b"] 0 rfl (by decide)
    rfl).1

theorem Fixed.listViewOf_eq (j : Fixed.StoredJob) :
    Fixed.listViewOf j =
      [("id", JSVal.str j.id), ("runAtMs", JSVal.num j.runAtMs),
       ("groupIds", JSVal.strArr j.groupIds),
       ("message", JSVal.str j.message),
       ("runAt", JSVal.isoDate j.runAtMs),
       ("status", JSVal.str "scheduled")] := rfl

theorem Enhanced.listViewOfE_eq (j : Enhanced.StoredJob) :
    Enhanced.listViewOf j =
      [("id", JSVal.str j.id), ("runAtMs", JSVal.num j.runAtMs),
       ("groupIds", JSVal.strArr j.groupIds),
       ("message", JSVal.str j.message),
       ("imageUrl", Enhanced.optStrVal j.imageUrl),
       ("hasImage", JSVal.boolV j.hasImage),
       ("runAt", JSVal.isoDate j.runAtMs),
       ("status", JSVal.str "scheduled")] := rfl

/-- C1 (evaluating the defect): after scheduling `pEx`, `getJob "1"` in the
fixed revision returns a view whose `groupIds`, `message` and `runAtMs`
match the request exactly — but the `{ ...job }` spread also copies the raw
`apiKey` credential (and the timer handle) into the view, contradicting the
spec's rule that the credential never leaks.  The enhanced revision builds
the view field by field: same round trip, no `apiKey` key. -/
theorem c1_fixed_getJob_view_leaks_credential :
    Fixed.getJob (Fixed.scheduleBroadcast pEx 1000 Fixed.initialState).2 "1" =
      some [("id", JSVal.str "1"), ("runAtMs", JSVal.num 5000),
        ("groupIds", JSVal.strArr ["g1", "g2"]),
        ("message", JSVal.str "hello"), ("timeout", JSVal.timerHandle "1"),
        ("apiKey", JSVal.str "secret-key"), ("phoneNumber", JSVal.str "p1"),
        ("runAt", JSVal.isoDate 5000), ("status", JSVal.str "scheduled")] ∧
    (Fixed.getJob (Fixed.scheduleBroadcast pEx 1000
        Fixed.initialState).2 "1").map (List.map Prod.fst) =
      some ["id", "runAtMs", "groupIds", "message", "timeout", "apiKey",
        "phoneNumber", "runAt", "status"] ∧
    Enhanced.getJob
        (Enhanced.scheduleBroadcast pEx 1000 Enhanced.initialState).2 "1" =
      some [("id", JSVal.str "1"), ("runAtMs", JSVal.num 5000),
        ("groupIds", JSVal.strArr ["g1", "g2"]),
        ("message", JSVal.str "hello"), ("runAt", JSVal.isoDate 5000),
        ("status", JSVal.str "scheduled"), ("hasImage", JSVal.boolV false),
        ("imageUrl", JSVal.nullV)] ∧
    (Enhanced.getJob (Enhanced.scheduleBroadcast pEx 1000
        Enhanced.initialState).2 "1").map (List.map Prod.fst) =
      some ["id", "runAtMs", "groupIds", "message", "runAt", "status",
        "hasImage", "imageUrl"] :=
  ⟨rfl, rfl, rfl, rfl⟩

/-- C2 counterexample: after scheduling `pEx` (whose `phoneNumber` is
"p1"), the single `listJobs` entry has exactly these keys in both
revisions — in particular no `phoneNumber` (ownerIdentity) key, so the
claim that every entry contains `ownerIdentity` fails at this input. -/
theorem c2_listJobs_counterexample :
    (Fixed.listJobs
        (Fixed.scheduleBroadcast pEx 1000 Fixed.initialState).2).map
      (List.map Prod.fst) =
      [["id", "runAtMs", "groupIds", "message", "runAt", "status"]] ∧
    (Enhanced.listJobs
        (Enhanced.scheduleBroadcast pEx 1000 Enhanced.initialState).2).map
      (List.map Prod.fst) =
      [["id", "runAtMs", "groupIds", "message", "imageUrl", "hasImage",
        "runAt", "status"]] :=
  ⟨rfl, rfl⟩

/-- C2 (amended): in every registry state, every `listJobs` entry is the
view of some stored job and contains its `id`, `groupIds` (destinations),
`message` (content), `runAtMs` (activation time) and status "scheduled";
it never contains the credential (`apiKey`) — nor, amended, the owner
identity (`phoneNumber`), which both revisions strip together with the
timer handle. -/
theorem c2_listJobs_entries_shape (stF : Fixed.SysState)
    (stE : Enhanced.SysState) (e eE : Obj) (hF : e ∈ Fixed.listJobs stF)
    (hE : eE ∈ Enhanced.listJobs stE) :
    ((∃ j ∈ stF.scheduledJobs.map Prod.snd, e = Fixed.listViewOf j ∧
        ("id", JSVal.str j.id) ∈ e ∧
        ("groupIds", JSVal.strArr j.groupIds) ∈ e ∧
        ("message", JSVal.str j.message) ∈ e ∧
        ("runAtMs", JSVal.num j.runAtMs) ∈ e ∧
        ("status", JSVal.str "scheduled") ∈ e) ∧
      (∀ v, ("apiKey", v) ∉ e) ∧ (∀ v, ("phoneNumber", v) ∉ e) ∧
      (∀ v, ("timeout", v) ∉ e)) ∧
    ((∃ j ∈ stE.scheduledJobs.map Prod.snd, eE = Enhanced.listViewOf j ∧
        ("id", JSVal.str j.id) ∈ eE ∧
        ("groupIds", JSVal.strArr j.groupIds) ∈ eE ∧
        ("message", JSVal.str j.message) ∈ eE ∧
        ("runAtMs", JSVal.num j.runAtMs) ∈ eE ∧
        ("status", JSVal.str "scheduled") ∈ eE) ∧
      (∀ v, ("apiKey", v) ∉ eE) ∧ (∀ v, ("phoneNumber", v) ∉ eE) ∧
      (∀ v, ("timeout", v) ∉ eE)) := by
  rcases List.mem_map.mp hF with ⟨j, hj, hje⟩
  rcases List.mem_map.mp hE with ⟨jE, hjE, hjeE⟩
  constructor
  · refine ⟨⟨j, hj, hje.symm, ?_, ?_, ?_, ?_, ?_⟩, ?_, ?_, ?_⟩
    · rw [← hje, Fixed.listViewOf_eq]
      simp
    · rw [← hje, Fixed.listViewOf_eq]
      simp
    · rw [← hje, Fixed.listViewOf_eq]
      simp
    · rw [← hje, Fixed.listViewOf_eq]
      simp
    · rw [← hje, Fixed.listViewOf_eq]
      simp
    · intro v hv
      have hk : "apiKey" ∈ e.map Prod.fst := List.mem_map_of_mem Prod.fst hv
      rw [← hje, Fixed.listViewOf_eq] at hk
      simp only [List.map_cons, List.map_nil] at hk
      exact absurd hk (by decide)
    · intro v hv
      have hk : "phoneNumber" ∈ e.map Prod.fst :=
        List.mem_map_of_mem Prod.fst hv
      rw [← hje, Fixed.listViewOf_eq] at hk
      simp only [List.map_cons, List.map_nil] at hk
      exact absurd hk (by decide)
    · intro v hv
      have hk : "timeout" ∈ e.map Prod.fst := List.mem_map_of_mem Prod.fst hv
      rw [← hje, Fixed.listViewOf_eq] at hk
      simp only [List.map_cons, List.map_nil] at hk
      exact absurd hk (by decide)
  · refine ⟨⟨jE, hjE, hjeE.symm, ?_, ?_, ?_, ?_, ?_⟩, ?_, ?_, ?_⟩
    · rw [← hjeE, Enhanced.listViewOfE_eq]
      simp
    · rw [← hjeE, Enhanced.listViewOfE_eq]
      simp
    · rw [← hjeE, Enhanced.listViewOfE_eq]
      simp
    · rw [← hjeE, Enhanced.listViewOfE_eq]
      simp
    · rw [← hjeE, Enhanced.listViewOfE_eq]
      simp
    · intro v hv
      have hk : "apiKey" ∈ eE.map Prod.fst := List.mem_map_of_mem Prod.fst hv
      rw [← hjeE, Enhanced.listViewOfE_eq] at hk
      simp only [List.map_cons, List.map_nil] at hk
      exact absurd hk (by decide)
    · intro v hv
      have hk : "phoneNumber" ∈ eE.map Prod.fst :=
        List.mem_map_of_mem Prod.fst hv
      rw [← hjeE, Enhanced.listViewOfE_eq] at hk
      simp only [List.map_cons, List.map_nil] at hk
      exact absurd hk (by decide)
    · intro v hv
      have hk : "timeout" ∈ eE.map Prod.fst :=
        List.mem_map_of_mem Prod.fst hv
      rw [← hjeE, Enhanced.listViewOfE_eq] at hk
      simp only [List.map_cons, List.map_nil] at hk
      exact absurd hk (by decide)

/-- Witness for the amended C2 at a concrete one-job registry. -/
theorem c2_listJobs_entries_shape_witness :
    Fixed.listViewOf Fixed.jobEx ∈
      Fixed.listJobs (Fixed.scheduleBroadcast pEx 1000 Fixed.initialState).2 ∧
    (∀ v, ("apiKey", v) ∉ Fixed.listViewOf Fixed.jobEx) ∧
    (∀ v, ("phoneNumber", v) ∉ Fixed.listViewOf Fixed.jobEx) :=
  ⟨by decide,
   (c2_listJobs_entries_shape
      (Fixed.scheduleBroadcast pEx 1000 Fixed.initialState).2
      (Enhanced.scheduleBroadcast pEx 1000 Enhanced.initialState).2
      (Fixed.listViewOf Fixed.jobEx) (Enhanced.listViewOf Enhanced.jobEx)
      (by decide) (by decide)).1.2.1,
   (c2_listJobs_entries_shape
      (Fixed.scheduleBroadcast pEx 1000 Fixed.initialState).2
      (Enhanced.scheduleBroadcast pEx 1000 Enhanced.initialState).2
      (Fixed.listViewOf Fixed.jobEx) (Enhanced.listViewOf Enhanced.jobEx)
      (by decide) (by decide)).1.2.2.1⟩

/-- C3: `scheduleBroadcast` always returns the `{ id, runAtMs }` handle and
arms a timer whose delay is `max 0 (runAtMs - now)`; when the activation
time is in the past or equal to `now`, that delay is exactly zero and the
call still returns a handle (it is total — no error path exists), in both
revisions. -/
theorem c3_delay_clamped_at_zero (p p2 : Params) (now now2 : Int)
    (stF stF2 : Fixed.SysState) (stE stE2 : Enhanced.SysState)
    (hpast : p2.runAtMs ≤ now2) :
    (Fixed.scheduleBroadcast p now stF).1 =
      { id := natToString stF.nextId, runAtMs := p.runAtMs } ∧
    (Fixed.scheduleBroadcast p now stF).2.timers =
      stF.timers ++
        [(⟨natToString stF.nextId, max 0 (p.runAtMs - now), p⟩ :
          Fixed.Timer)] ∧
    (Enhanced.scheduleBroadcast p now stE).1 =
      { id := natToString stE.nextId, runAtMs := p.runAtMs } ∧
    (Enhanced.scheduleBroadcast p now stE).2.timers =
      stE.timers ++
        [(⟨natToString stE.nextId, max 0 (p.runAtMs - now), p⟩ :
          Enhanced.Timer)] ∧
    max 0 (p2.runAtMs - now2) = 0 ∧
    (Fixed.scheduleBroadcast p2 now2 stF2).2.timers =
      stF2.timers ++ [(⟨natToString stF2.nextId, 0, p2⟩ : Fixed.Timer)] ∧
    (Enhanced.scheduleBroadcast p2 now2 stE2).2.timers =
      stE2.timers ++
        [(⟨natToString stE2.nextId, 0, p2⟩ : Enhanced.Timer)] := by
  have hz : max 0 (p2.runAtMs - now2) = 0 :=
    max_eq_left (by omega)
  refine ⟨rfl, rfl, rfl, rfl, hz, ?_, ?_⟩
  · show (Fixed.scheduleBroadcast p2 now2 stF2).2.timers = _
    unfold Fixed.scheduleBroadcast
    rw [hz]
  · show (Enhanced.scheduleBroadcast p2 now2 stE2).2.timers = _
    unfold Enhanced.scheduleBroadcast
    rw [hz]

/-- Witness for C3 with an activation time 1000 ms in the past. -/
theorem c3_delay_clamped_at_zero_witness :
    max 0 (pEx.runAtMs - 6000) = 0 ∧
    (Fixed.scheduleBroadcast pEx 6000 Fixed.initialState).2.timers =
      [(⟨natToString 1, 0, pEx⟩ : Fixed.Timer)] := by
  have h := c3_delay_clamped_at_zero pEx pEx 1000 6000 Fixed.initialState
    Fixed.initialState Enhanced.initialState Enhanced.initialState
    (by decide)
  exact ⟨h.2.2.2.2.1, by simpa [Fixed.initialState] using h.2.2.2.2.2.1⟩

/-- C6 counterexample: activate a connected, all-sends-succeed job whose
destination list is `["a", "a"]` (a duplicated destination).  The fixed
revision's gap check uses `groupIds.indexOf(groupId)`, which returns the
first occurrence, so a pacing sleep is also emitted after the final send —
refuting the claim that no pacing delay follows the last destination. -/
theorem c6_pacing_counterexample :
    (Fixed.timeoutBody Fixed.envAllOk pDup "1" [("1", Fixed.jobDup)]).1 =
      [Event.attempt SendKind.text "a", Event.sleep paceMsFixed,
       Event.attempt SendKind.text "a", Event.sleep paceMsFixed] ∧
    (Fixed.timeoutBody Fixed.envAllOk pDup "1"
        [("1", Fixed.jobDup)]).1.getLast? = some (Event.sleep paceMsFixed) :=
  ⟨rfl, rfl⟩

theorem indexOf_append_cons (pre : List String) (g : String)
    (gs : List String) (h : g ∉ pre) :
    List.indexOf g (pre ++ g :: gs) = pre.length := by
  induction pre with
  | nil => simp
  | cons p ps ih =>
    have hp : p ≠ g := fun hh => h (hh ▸ List.mem_cons_self p ps)
    rw [List.cons_append, List.indexOf_cons_ne _ hp,
      ih (fun hm => h (List.mem_cons_of_mem p hm))]
    rfl

theorem Fixed.sendLoop_allOk (env : Fixed.DispatchEnv)
    (hok : ∀ i, env.sendResult i = Except.ok ()) :
    ∀ (gs pre : List String) (i : Nat), (pre ++ gs).Nodup →
      Fixed.sendLoop env (pre ++ gs) gs i = Fixed.successTrace gs := by
  intro gs
  induction gs with
  | nil => intro pre i _; rfl
  | cons g gs ih =>
    intro pre i h
    have hgpre : g ∉ pre := by
      have hd := List.disjoint_of_nodup_append h
      intro hg
      exact hd hg (List.mem_cons_self g gs)
    have hidx : List.indexOf g (pre ++ g :: gs) = pre.length :=
      indexOf_append_cons pre g gs hgpre
    rw [Fixed.sendLoop_cons_ok env (pre ++ g :: gs) g gs i (hok i), hidx]
    cases gs with
    | nil =>
      have hc : ¬ (pre.length < (pre ++ [g]).length - 1) := by
        simp
      rw [if_neg hc]
      simp [Fixed.sendLoop, Fixed.successTrace]
    | cons g2 gs2 =>
      have hc : pre.length < (pre ++ g :: g2 :: gs2).length - 1 := by
        simp only [List.length_append, List.length_cons]
        omega
      have hre : pre ++ g :: g2 :: gs2 = (pre ++ [g]) ++ (g2 :: gs2) := by
        simp
      have hnd : ((pre ++ [g]) ++ (g2 :: gs2)).Nodup := by
        rwa [← hre]
      rw [if_pos hc, hre, ih (pre ++ [g]) (i + 1) hnd]
      simp [Fixed.successTrace]

theorem Enhanced.sendLoopE_allOk (env : Enhanced.DispatchEnv) (k : SendKind)
    (hok : ∀ i, env.sendResult i = Except.ok true) :
    ∀ (gs : List String) (i n : Nat), n = i + gs.length →
      Enhanced.sendLoop env k n gs i = Enhanced.successTrace env k gs i := by
  intro gs
  induction gs with
  | nil => intro i n _; rfl
  | cons g gs ih =>
    intro i n hn
    rw [Enhanced.sendLoopE_cons_ok env k n g gs i true (hok i)]
    cases gs with
    | nil =>
      have hc : ¬ (i < n - 1) := by
        simp only [List.length_cons, List.length_nil] at hn
        omega
      rw [if_neg hc]
      simp [Enhanced.sendLoop, Enhanced.successTrace]
    | cons g2 gs2 =>
      have hc : i < n - 1 := by
        simp only [List.length_cons] at hn
        omega
      rw [if_pos hc, ih (i + 1) n (by simp only [List.length_cons] at hn ⊢; omega)]
      simp [Enhanced.successTrace]

/-- C6 (amended): for every activated job with pairwise-distinct
destinations, a connected status check and all sends succeeding, the
dispatch trace is exactly the destinations in input order with one pacing
sleep in each of the N-1 gaps and none after the last
(`successTrace`), and the job is deleted from the registry afterwards —
in both revisions.  (Without the distinctness hypothesis the fixed
revision can emit a pacing sleep after the last send, see the
counterexample; the enhanced revision indexes the loop directly and does
not need it.) -/
theorem c6_success_run_trace (envF : Fixed.DispatchEnv) (pF : Params)
    (idF : String) (jobsF : Fixed.JobMap) (envE : Enhanced.DispatchEnv)
    (pE : Params) (idE : String) (jobsE : Enhanced.JobMap)
    (hokF : ∀ i, envF.sendResult i = Except.ok ())
    (hconnF : envF.statusResult = Except.ok (some true))
    (hndF : pF.groupIds.Nodup)
    (hokE : ∀ i, envE.sendResult i = Except.ok true)
    (hconnE : envE.statusResult = Except.ok (some true))
    (_hndE : pE.groupIds.Nodup) :
    (Fixed.timeoutBody envF pF idF jobsF).1 =
      Fixed.successTrace pF.groupIds ∧
    attemptsOf (Fixed.timeoutBody envF pF idF jobsF).1 = pF.groupIds ∧
    mapGet (Fixed.timeoutBody envF pF idF jobsF).2 idF = none ∧
    (Enhanced.timeoutBody envE pE idE jobsE).1 =
      Enhanced.successTrace envE (Enhanced.sendKindOf pE) pE.groupIds 0 ∧
    attemptsOf (Enhanced.timeoutBody envE pE idE jobsE).1 = pE.groupIds ∧
    mapGet (Enhanced.timeoutBody envE pE idE jobsE).2 idE = none := by
  have htrF : (Fixed.timeoutBody envF pF idF jobsF).1 =
      Fixed.sendLoop envF pF.groupIds pF.groupIds 0 := by
    unfold Fixed.timeoutBody
    rw [hconnF]
    rfl
  have htrE : (Enhanced.timeoutBody envE pE idE jobsE).1 =
      Enhanced.sendLoop envE (Enhanced.sendKindOf pE) pE.groupIds.length
        pE.groupIds 0 := by
    unfold Enhanced.timeoutBody
    rw [hconnE]
    rfl
  refine ⟨?_, ?_, ?_, ?_, ?_, ?_⟩
  · rw [htrF]
    have := Fixed.sendLoop_allOk envF hokF pF.groupIds [] 0
      (by simpa using hndF)
    simpa using this
  · rw [htrF]
    exact Fixed.attemptsOf_sendLoop envF pF.groupIds pF.groupIds 0
  · rw [Fixed.mapGet_timeoutBody]
    simp
  · rw [htrE]
    exact Enhanced.sendLoopE_allOk envE (Enhanced.sendKindOf pE) hokE
      pE.groupIds 0 pE.groupIds.length (by omega)
  · rw [htrE]
    exact Enhanced.attemptsOf_sendLoopE envE (Enhanced.sendKindOf pE)
      pE.groupIds.length pE.groupIds 0
  · rw [Enhanced.mapGet_timeoutBodyE]
    simp

/-- Witness for the amended C6: two distinct destinations, all successes. -/
theorem c6_success_run_trace_witness :
    (Fixed.timeoutBody Fixed.envAllOk pEx "1" [("1", Fixed.jobEx)]).1 =
      Fixed.successTrace pEx.groupIds ∧
    mapGet (Fixed.timeoutBody Fixed.envAllOk pEx "1"
      [("1", Fixed.jobEx)]).2 "1" = none ∧
    (Enhanced.timeoutBody Enhanced.envAllOk pEx "1"
        [("1", Enhanced.jobEx)]).1 =
      Enhanced.successTrace Enhanced.envAllOk (Enhanced.sendKindOf pEx)
        pEx.groupIds 0 :=
  ⟨(c6_success_run_trace Fixed.envAllOk pEx "1" [("1", Fixed.jobEx)]
      Enhanced.envAllOk pEx "1" [("1", Enhanced.jobEx)] (fun _ => rfl) rfl
      (by decide) (fun _ => rfl) rfl (by decide)).1,
   (c6_success_run_trace Fixed.envAllOk pEx "1" [("1", Fixed.jobEx)]
      Enhanced.envAllOk pEx "1" [("1", Enhanced.jobEx)] (fun _ => rfl) rfl
      (by decide) (fun _ => rfl) rfl (by decide)).2.2.1,
   (c6_success_run_trace Fixed.envAllOk pEx "1" [("1", Fixed.jobEx)]
      Enhanced.envAllOk pEx "1" [("1", Enhanced.jobEx)] (fun _ => rfl) rfl
      (by decide) (fun _ => rfl) rfl (by decide)).2.2.2.1⟩

theorem Fixed.runActs_cons (st : Fixed.SysState) (a : Fixed.Act)
    (as : List Fixed.Act) :
    Fixed.runActs st (a :: as) =
      ((Fixed.runActs (Fixed.step st a).1 as).1,
       (Fixed.step st a).2 ++ (Fixed.runActs (Fixed.step st a).1 as).2) := rfl

theorem Fixed.step_schedule (st : Fixed.SysState) (p : Params) (now : Int) :
    Fixed.step st (Fixed.Act.schedule p now) =
      ((Fixed.scheduleBroadcast p now st).2,
       [Fixed.Out.scheduled (natToString st.nextId) p.runAtMs]) := rfl

theorem Fixed.step_cancel (st : Fixed.SysState) (id : String) :
    Fixed.step st (Fixed.Act.cancel id) = ((Fixed.cancelJob st id).2, []) := rfl

theorem Fixed.step_fire_none (st : Fixed.SysState) (id : String)
    (env : Fixed.DispatchEnv)
    (h : st.timers.find? (fun t => t.jobId == id) = none) :
    Fixed.step st (Fixed.Act.fire id env) = (st, []) := by
  show (match st.timers.find? (fun t => t.jobId == id) with
    | none => (st, [])
    | some t =>
      let r := Fixed.timeoutBody env t.params id st.scheduledJobs
      let st2 : Fixed.SysState :=
        { scheduledJobs := r.2, nextId := st.nextId,
          timers := st.timers.filter (fun u => !(u.jobId == id)) }
      (st2, r.1.map (Fixed.tagEvent id))) = (st, [])
  rw [h]

theorem Fixed.step_fire_some (st : Fixed.SysState) (id : String)
    (env : Fixed.DispatchEnv) (t : Fixed.Timer)
    (h : st.timers.find? (fun u => u.jobId == id) = some t) :
    Fixed.step st (Fixed.Act.fire id env) =
      ({ scheduledJobs := (Fixed.timeoutBody env t.params id
            st.scheduledJobs).2,
         nextId := st.nextId,
         timers := st.timers.filter (fun u => !(u.jobId == id)) },
       (Fixed.timeoutBody env t.params id st.scheduledJobs).1.map
         (Fixed.tagEvent id)) := by
  show (match st.timers.find? (fun t => t.jobId == id) with
    | none => (st, [])
    | some t =>
      let r := Fixed.timeoutBody env t.params id st.scheduledJobs
      let st2 : Fixed.SysState :=
        { scheduledJobs := r.2, nextId := st.nextId,
          timers := st.timers.filter (fun u => !(u.jobId == id)) }
      (st2, r.1.map (Fixed.tagEvent id))) = _
  rw [h]

theorem Fixed.cancelJob_nextId (st : Fixed.SysState) (id : String) :
    (Fixed.cancelJob st id).2.nextId = st.nextId := by
  unfold Fixed.cancelJob
  cases mapGet st.scheduledJobs id <;> rfl

theorem Fixed.assignedIds_append (a b : List Fixed.Out) :
    Fixed.assignedIds (a ++ b) =
      Fixed.assignedIds a ++ Fixed.assignedIds b := by
  unfold Fixed.assignedIds
  rw [List.filterMap_append]

theorem Fixed.assignedIds_tagged (id : String) (evs : List Event) :
    Fixed.assignedIds (evs.map (Fixed.tagEvent id)) = [] := by
  induction evs with
  | nil => rfl
  | cons e es ih =>
    cases e with
    | attempt k d =>
      simp only [List.map_cons, Fixed.tagEvent, Fixed.assignedIds,
        List.filterMap_cons]
      exact ih
    | sleep ms =>
      simp only [List.map_cons, Fixed.tagEvent, Fixed.assignedIds,
        List.filterMap_cons]
      exact ih

theorem Fixed.run_assigned (acts : List Fixed.Act) :
    ∀ st : Fixed.SysState,
      Fixed.assignedIds (Fixed.runActs st acts).2 =
        countIds st.nextId (Fixed.schedCount acts) ∧
      (Fixed.runActs st acts).1.nextId = st.nextId + Fixed.schedCount acts := by
  induction acts with
  | nil => intro st; exact ⟨rfl, rfl⟩
  | cons a as ih =>
    intro st
    rcases ih (Fixed.step st a).1 with ⟨h1, h2⟩
    cases a with
    | schedule p now =>
      refine ⟨?_, ?_⟩
      · show natToString st.nextId ::
            Fixed.assignedIds (Fixed.runActs
              (Fixed.step st (Fixed.Act.schedule p now)).1 as).2 =
          natToString st.nextId :: countIds (st.nextId + 1)
            (Fixed.schedCount as)
        exact congrArg (List.cons (natToString st.nextId)) h1
      · show (Fixed.runActs
            (Fixed.step st (Fixed.Act.schedule p now)).1 as).1.nextId =
          st.nextId + (Fixed.schedCount as + 1)
        rw [h2]
        show st.nextId + 1 + Fixed.schedCount as = _
        omega
    | cancel id =>
      have hn : (Fixed.step st (Fixed.Act.cancel id)).1.nextId = st.nextId :=
        Fixed.cancelJob_nextId st id
      refine ⟨?_, ?_⟩
      · show Fixed.assignedIds (Fixed.runActs
            (Fixed.step st (Fixed.Act.cancel id)).1 as).2 =
          countIds st.nextId (Fixed.schedCount as)
        rw [h1, hn]
      · show (Fixed.runActs
            (Fixed.step st (Fixed.Act.cancel id)).1 as).1.nextId =
          st.nextId + Fixed.schedCount as
        rw [h2, hn]
    | fire id env =>
      cases hf : st.timers.find? (fun t => t.jobId == id) with
      | none =>
        have hstep : Fixed.step st (Fixed.Act.fire id env) = (st, []) :=
          Fixed.step_fire_none st id env hf
        rw [hstep] at h1 h2
        refine ⟨?_, ?_⟩
        · show Fixed.assignedIds
              ((Fixed.step st (Fixed.Act.fire id env)).2 ++
                (Fixed.runActs
                  (Fixed.step st (Fixed.Act.fire id env)).1 as).2) =
            countIds st.nextId (Fixed.schedCount as)
          rw [hstep]
          exact h1
        · show (Fixed.runActs
              (Fixed.step st (Fixed.Act.fire id env)).1 as).1.nextId =
            st.nextId + Fixed.schedCount as
          rw [hstep]
          exact h2
      | some t =>
        have hstep := Fixed.step_fire_some st id env t hf
        rw [hstep] at h1 h2
        refine ⟨?_, ?_⟩
        · show Fixed.assignedIds
              ((Fixed.step st (Fixed.Act.fire id env)).2 ++
                (Fixed.runActs
                  (Fixed.step st (Fixed.Act.fire id env)).1 as).2) =
            countIds st.nextId (Fixed.schedCount as)
          rw [hstep, Fixed.assignedIds_append, Fixed.assignedIds_tagged,
            List.nil_append]
          exact h1
        · show (Fixed.runActs
              (Fixed.step st (Fixed.Act.fire id env)).1 as).1.nextId =
            st.nextId + Fixed.schedCount as
          rw [hstep]
          exact h2

theorem countIds_mem (len : Nat) :
    ∀ start s, s ∈ countIds start len →
      ∃ k, start ≤ k ∧ s = natToString k := by
  induction len with
  | zero => intro start s hs; simp [countIds] at hs
  | succ n ih =>
    intro start s hs
    simp only [countIds, List.mem_cons] at hs
    rcases hs with h | h
    · exact ⟨start, le_rfl, h⟩
    · rcases ih (start + 1) s h with ⟨k, hk, he⟩
      exact ⟨k, by omega, he⟩

theorem countIds_nodup (len : Nat) : ∀ start, (countIds start len).Nodup := by
  induction len with
  | zero => intro start; simp [countIds]
  | succ n ih =>
    intro start
    rw [countIds]
    refine List.nodup_cons.mpr ⟨?_, ih (start + 1)⟩
    intro hmem
    rcases countIds_mem n (start + 1) _ hmem with ⟨k, hk, he⟩
    have := natToString_injective he
    omega

/-- C9: over any sequence of stimuli in one process lifetime, the ids
handed out by `scheduleBroadcast` are exactly the consecutive decimal
renderings of the always-increasing `nextId` counter starting at 1
(`countIds`), the counter's final value is its start plus the number of
schedules, and the assigned ids are pairwise distinct. -/
theorem c9_ids_unique_and_monotone (acts : List Fixed.Act) :
    Fixed.assignedIds (Fixed.runActs Fixed.initialState acts).2 =
      countIds 1 (Fixed.schedCount acts) ∧
    (Fixed.runActs Fixed.initialState acts).1.nextId =
      1 + Fixed.schedCount acts ∧
    (Fixed.assignedIds (Fixed.runActs Fixed.initialState acts).2).Nodup := by
  rcases Fixed.run_assigned acts Fixed.initialState with ⟨h1, h2⟩
  refine ⟨h1, h2, ?_⟩
  rw [h1]
  exact countIds_nodup (Fixed.schedCount acts) 1

theorem Fixed.cancelJob_some (st : Fixed.SysState) (id : String)
    (j : Fixed.StoredJob) (h : mapGet st.scheduledJobs id = some j) :
    Fixed.cancelJob st id =
      (true,
       { st with
         timers := st.timers.filter (fun t => !(t.jobId == j.timeout)),
         scheduledJobs := mapDelete st.scheduledJobs id }) := by
  unfold Fixed.cancelJob
  rw [h]

theorem Fixed.cancelJob_none (st : Fixed.SysState) (id : String)
    (h : mapGet st.scheduledJobs id = none) :
    Fixed.cancelJob st id = (false, st) := by
  unfold Fixed.cancelJob
  rw [h]

theorem Enhanced.cancelJobE_some (st : Enhanced.SysState) (id : String)
    (j : Enhanced.StoredJob) (h : mapGet st.scheduledJobs id = some j) :
    Enhanced.cancelJob st id =
      (true,
       { st with
         timers := st.timers.filter (fun t => !(t.jobId == j.timeout)),
         scheduledJobs := mapDelete st.scheduledJobs id }) := by
  unfold Enhanced.cancelJob
  rw [h]

theorem Enhanced.cancelJobE_none (st : Enhanced.SysState) (id : String)
    (h : mapGet st.scheduledJobs id = none) :
    Enhanced.cancelJob st id = (false, st) := by
  unfold Enhanced.cancelJob
  rw [h]

theorem Fixed.Clean_step (id : String) (st : Fixed.SysState) (a : Fixed.Act)
    (hc : Fixed.Clean id st) :
    Fixed.Clean id (Fixed.step st a).1 ∧
    ∀ o ∈ (Fixed.step st a).2, ∀ k d, o ≠ Fixed.Out.attempted id k d := by
  rcases hc with ⟨htm, k0, hk0, hid⟩
  cases a with
  | schedule p now =>
    refine ⟨⟨?_, ⟨k0, ?_, hid⟩⟩, ?_⟩
    · intro t ht
      have ht2 : t ∈ st.timers ++
          [(⟨natToString st.nextId, max 0 (p.runAtMs - now), p⟩ :
            Fixed.Timer)] := ht
      rcases List.mem_append.mp ht2 with h | h
      · exact htm t h
      · have he := List.mem_singleton.mp h
        rw [he]
        intro heq
        have : k0 = st.nextId := natToString_injective (hid ▸ heq).symm
        omega
    · show k0 < st.nextId + 1
      omega
    · intro o ho k d
      have ho2 : o ∈ [Fixed.Out.scheduled (natToString st.nextId)
          p.runAtMs] := ho
      rw [List.mem_singleton.mp ho2]
      intro heq
      exact Fixed.Out.noConfusion heq
  | cancel cid =>
    cases hm : mapGet st.scheduledJobs cid with
    | none =>
      rw [Fixed.step_cancel, Fixed.cancelJob_none st cid hm]
      refine ⟨⟨htm, k0, hk0, hid⟩, ?_⟩
      intro o ho
      exact absurd (ho : o ∈ ([] : List Fixed.Out)) (List.not_mem_nil o)
    | some j =>
      rw [Fixed.step_cancel, Fixed.cancelJob_some st cid j hm]
      refine ⟨⟨?_, ⟨k0, hk0, hid⟩⟩, ?_⟩
      · intro t ht
        exact htm t (List.mem_of_mem_filter ht)
      · intro o ho
        exact absurd (ho : o ∈ ([] : List Fixed.Out)) (List.not_mem_nil o)
  | fire fid env =>
    cases hf : st.timers.find? (fun t => t.jobId == fid) with
    | none =>
      rw [Fixed.step_fire_none st fid env hf]
      refine ⟨⟨htm, k0, hk0, hid⟩, ?_⟩
      intro o ho
      exact absurd (ho : o ∈ ([] : List Fixed.Out)) (List.not_mem_nil o)
    | some t =>
      have htmem := List.mem_of_find?_eq_some hf
      have htid : t.jobId = fid := by
        have := List.find?_some hf
        simpa using this
      have hfid : fid ≠ id := by
        intro he
        exact htm t htmem (htid.trans he)
      rw [Fixed.step_fire_some st fid env t hf]
      refine ⟨⟨?_, ⟨k0, hk0, hid⟩⟩, ?_⟩
      · intro u hu
        exact htm u (List.mem_of_mem_filter hu)
      · intro o ho k d
        rcases List.mem_map.mp ho with ⟨e, _, hoe⟩
        intro heq
        cases e with
        | attempt ek ed =>
          rw [← hoe] at heq
          have : fid = id := by
            injection heq
          exact hfid this
        | sleep ms =>
          rw [← hoe] at heq
          exact Fixed.Out.noConfusion heq

theorem Fixed.Clean_runActs (id : String) (acts : List Fixed.Act) :
    ∀ st : Fixed.SysState, Fixed.Clean id st →
      Fixed.Clean id (Fixed.runActs st acts).1 ∧
      ∀ o ∈ (Fixed.runActs st acts).2, ∀ k d,
        o ≠ Fixed.Out.attempted id k d := by
  induction acts with
  | nil =>
    intro st hc
    exact ⟨hc, by intro o ho; exact absurd ho (List.not_mem_nil o)⟩
  | cons a as ih =>
    intro st hc
    rcases Fixed.Clean_step id st a hc with ⟨hc1, hno1⟩
    rcases ih (Fixed.step st a).1 hc1 with ⟨hc2, hno2⟩
    refine ⟨hc2, ?_⟩
    intro o ho k d
    have ho2 : o ∈ (Fixed.step st a).2 ++
        (Fixed.runActs (Fixed.step st a).1 as).2 := ho
    rcases List.mem_append.mp ho2 with h | h
    · exact hno1 o h k d
    · exact hno2 o h k d

theorem Fixed.GoodS_step (st : Fixed.SysState) (a : Fixed.Act)
    (hg : Fixed.GoodS st) : Fixed.GoodS (Fixed.step st a).1 := by
  rcases hg with ⟨hjobs, htimers⟩
  cases a with
  | schedule p now =>
    constructor
    · intro e he
      have he2 : e ∈ mapSet st.scheduledJobs (natToString st.nextId)
          (⟨natToString st.nextId, p.runAtMs, p.groupIds, p.message,
            natToString st.nextId, p.apiKey, p.phoneNumber⟩ :
            Fixed.StoredJob) := he
      rcases mem_mapSet he2 with h | h
      · rcases hjobs e h with ⟨⟨k, hk, hek⟩, ht⟩
        exact ⟨⟨k, Nat.lt_succ_of_lt hk, hek⟩, ht⟩
      · rw [h]
        exact ⟨⟨st.nextId, Nat.lt_succ_self _, rfl⟩, rfl⟩
    · intro t ht
      have ht2 : t ∈ st.timers ++
          [(⟨natToString st.nextId, max 0 (p.runAtMs - now), p⟩ :
            Fixed.Timer)] := ht
      rcases List.mem_append.mp ht2 with h | h
      · rcases htimers t h with ⟨k, hk, hk2⟩
        exact ⟨k, Nat.lt_succ_of_lt hk, hk2⟩
      · rw [List.mem_singleton.mp h]
        exact ⟨st.nextId, Nat.lt_succ_self _, rfl⟩
  | cancel cid =>
    cases hm : mapGet st.scheduledJobs cid with
    | none =>
      rw [Fixed.step_cancel, Fixed.cancelJob_none st cid hm]
      exact ⟨hjobs, htimers⟩
    | some j =>
      rw [Fixed.step_cancel, Fixed.cancelJob_some st cid j hm]
      constructor
      · intro e he
        exact hjobs e (List.mem_of_mem_filter he)
      · intro t ht
        exact htimers t (List.mem_of_mem_filter ht)
  | fire fid env =>
    cases hf : st.timers.find? (fun t => t.jobId == fid) with
    | none =>
      rw [Fixed.step_fire_none st fid env hf]
      exact ⟨hjobs, htimers⟩
    | some t =>
      rw [Fixed.step_fire_some st fid env t hf]
      constructor
      · intro e he
        exact hjobs e
          (Fixed.mem_timeoutBody_snd env t.params fid st.scheduledJobs e he)
      · intro u hu
        exact htimers u (List.mem_of_mem_filter hu)

theorem Fixed.Hist_step (st : Fixed.SysState) (a : Fixed.Act)
    (outs : List Fixed.Out) (hg : Fixed.GoodS st) (hh : Fixed.Hist st outs) :
    Fixed.Hist (Fixed.step st a).1 (outs ++ (Fixed.step st a).2) := by
  cases a with
  | schedule p now =>
    intro id k d hmem
    have hmem2 : Fixed.Out.attempted id k d ∈ outs ++
        [Fixed.Out.scheduled (natToString st.nextId) p.runAtMs] := hmem
    rcases List.mem_append.mp hmem2 with h | h
    · rcases hh id k d h with ⟨⟨k2, hk2, hid2⟩, htm2, hjob2⟩
      have hne : id ≠ natToString st.nextId := by
        intro he
        have := natToString_injective (he.symm.trans hid2).symm
        omega
      refine ⟨⟨k2, Nat.lt_succ_of_lt hk2, hid2⟩, ?_, ?_⟩
      · intro t ht
        have ht2 : t ∈ st.timers ++
            [(⟨natToString st.nextId, max 0 (p.runAtMs - now), p⟩ :
              Fixed.Timer)] := ht
        rcases List.mem_append.mp ht2 with h2 | h2
        · exact htm2 t h2
        · rw [List.mem_singleton.mp h2]
          intro he
          exact hne he.symm
      · show mapGet (mapSet st.scheduledJobs (natToString st.nextId)
            (⟨natToString st.nextId, p.runAtMs, p.groupIds, p.message,
              natToString st.nextId, p.apiKey, p.phoneNumber⟩ :
              Fixed.StoredJob)) id = none
        rw [mapGet_mapSet_ne _ _ _ _ hne]
        exact hjob2
    · exact absurd (List.mem_singleton.mp h)
        (fun he => Fixed.Out.noConfusion he)
  | cancel cid =>
    cases hm : mapGet st.scheduledJobs cid with
    | none =>
      rw [Fixed.step_cancel, Fixed.cancelJob_none st cid hm]
      intro id k d hmem
      have hmem2 : Fixed.Out.attempted id k d ∈ outs ++
          ([] : List Fixed.Out) := hmem
      rw [List.append_nil] at hmem2
      exact hh id k d hmem2
    | some j =>
      rw [Fixed.step_cancel, Fixed.cancelJob_some st cid j hm]
      intro id k d hmem
      have hmem2 : Fixed.Out.attempted id k d ∈ outs ++
          ([] : List Fixed.Out) := hmem
      rw [List.append_nil] at hmem2
      rcases hh id k d hmem2 with ⟨hex, htm2, hjob2⟩
      refine ⟨hex, ?_, ?_⟩
      · intro t ht
        exact htm2 t (List.mem_of_mem_filter ht)
      · show mapGet (mapDelete st.scheduledJobs cid) id = none
        rw [mapGet_mapDelete]
        by_cases hcd : id = cid
        · rw [if_pos hcd]
        · rw [if_neg hcd]
          exact hjob2
  | fire fid env =>
    cases hf : st.timers.find? (fun t => t.jobId == fid) with
    | none =>
      rw [Fixed.step_fire_none st fid env hf]
      intro id k d hmem
      have hmem2 : Fixed.Out.attempted id k d ∈ outs ++
          ([] : List Fixed.Out) := hmem
      rw [List.append_nil] at hmem2
      exact hh id k d hmem2
    | some t =>
      rw [Fixed.step_fire_some st fid env t hf]
      intro id k d hmem
      have hmem2 : Fixed.Out.attempted id k d ∈ outs ++
          (Fixed.timeoutBody env t.params fid st.scheduledJobs).1.map
            (Fixed.tagEvent fid) := hmem
      rcases List.mem_append.mp hmem2 with h | h
      · rcases hh id k d h with ⟨⟨k2, hk2, hid2⟩, htm2, hjob2⟩
        refine ⟨⟨k2, hk2, hid2⟩, ?_, ?_⟩
        · intro u hu
          exact htm2 u (List.mem_of_mem_filter hu)
        · show mapGet (Fixed.timeoutBody env t.params fid
              st.scheduledJobs).2 id = none
          rw [Fixed.mapGet_timeoutBody]
          by_cases hq : id = fid
          · rw [if_pos hq]
          · rw [if_neg hq]
            exact hjob2
      · rcases List.mem_map.mp h with ⟨e, _, hoe⟩
        have hid : fid = id := by
          cases e with
          | attempt ek ed =>
            have : Fixed.Out.attempted fid ek ed =
                Fixed.Out.attempted id k d := hoe
            injection this with h1 h2 h3
          | sleep ms =>
            exact absurd (hoe : Fixed.Out.slept fid ms =
              Fixed.Out.attempted id k d) (fun he => Fixed.Out.noConfusion he)
        subst hid
        have htfid : t.jobId = fid := by
          simpa using List.find?_some hf
        rcases hg.2 t (List.mem_of_find?_eq_some hf) with ⟨k2, hk2, htj⟩
        refine ⟨⟨k2, hk2, ?_⟩, ?_, ?_⟩
        · rw [← htfid]
          exact htj
        · intro u hu
          have hp := (List.mem_filter.mp hu).2
          intro he
          rw [he] at hp
          simp at hp
        · show mapGet (Fixed.timeoutBody env t.params fid
              st.scheduledJobs).2 fid = none
          rw [Fixed.mapGet_timeoutBody]
          simp

theorem Fixed.GoodS_initial : Fixed.GoodS Fixed.initialState := by
  constructor
  · intro e he
    exact absurd he (List.not_mem_nil e)
  · intro t ht
    exact absurd ht (List.not_mem_nil t)

theorem Fixed.Hist_initial : Fixed.Hist Fixed.initialState [] := by
  intro id k d hmem
  exact absurd hmem (List.not_mem_nil _)

theorem Fixed.run_good_hist (acts : List Fixed.Act) :
    ∀ (st : Fixed.SysState) (outs : List Fixed.Out), Fixed.GoodS st →
      Fixed.Hist st outs →
      Fixed.GoodS (Fixed.runActs st acts).1 ∧
      Fixed.Hist (Fixed.runActs st acts).1
        (outs ++ (Fixed.runActs st acts).2) := by
  induction acts with
  | nil =>
    intro st outs hg hh
    refine ⟨hg, ?_⟩
    intro id k d hmem
    have hmem2 : Fixed.Out.attempted id k d ∈ outs ++
        ([] : List Fixed.Out) := hmem
    rw [List.append_nil] at hmem2
    exact hh id k d hmem2
  | cons a as ih =>
    intro st outs hg hh
    have hg2 := Fixed.GoodS_step st a hg
    have hh2 := Fixed.Hist_step st a outs hg hh
    rcases ih (Fixed.step st a).1 (outs ++ (Fixed.step st a).2) hg2 hh2
      with ⟨hg3, hh3⟩
    refine ⟨hg3, ?_⟩
    intro id k d hmem
    apply hh3 id k d
    have hmem2 : Fixed.Out.attempted id k d ∈ outs ++
        ((Fixed.step st a).2 ++
          (Fixed.runActs (Fixed.step st a).1 as).2) := hmem
    rw [← List.append_assoc] at hmem2
    exact hmem2

/-- C4: from any reachable state of the fixed revision, if a live job `id`
is registered (equivalently, its timer has not fired — firing deletes the
entry atomically with the timer in this model), then `cancelJob id`
returns true, disarms the job's timer, and deletes the entry, so a
subsequent `getJob id` reports not-found; moreover no destination of that
job ever receives a delivery attempt — neither in the run so far nor in
any continuation after the cancellation (ids are never reissued).  For an
id with no live job, `cancelJob` returns false and leaves the state
unchanged — in both revisions (the enhanced revision's live case is also
included, over arbitrary states). -/
theorem c4_cancel_before_fire (acts acts2 : List Fixed.Act) (id : String)
    (j : Fixed.StoredJob)
    (hlive : mapGet
      ((Fixed.runActs Fixed.initialState acts).1).scheduledJobs id =
      some j) :
    (Fixed.cancelJob (Fixed.runActs Fixed.initialState acts).1 id).1 =
      true ∧
    Fixed.getJob
      (Fixed.cancelJob (Fixed.runActs Fixed.initialState acts).1 id).2 id =
      none ∧
    (∀ t ∈ (Fixed.cancelJob
        (Fixed.runActs Fixed.initialState acts).1 id).2.timers,
      t.jobId ≠ id) ∧
    (∀ o ∈ (Fixed.runActs Fixed.initialState acts).2, ∀ k d,
      o ≠ Fixed.Out.attempted id k d) ∧
    (∀ o ∈ (Fixed.runActs
        (Fixed.cancelJob (Fixed.runActs Fixed.initialState acts).1 id).2
        acts2).2, ∀ k d, o ≠ Fixed.Out.attempted id k d) ∧
    (∀ (st2 : Fixed.SysState) (id2 : String),
      mapGet st2.scheduledJobs id2 = none →
        Fixed.cancelJob st2 id2 = (false, st2)) ∧
    (∀ (stE : Enhanced.SysState) (id2 : String) (j2 : Enhanced.StoredJob),
      mapGet stE.scheduledJobs id2 = some j2 →
        (Enhanced.cancelJob stE id2).1 = true ∧
        Enhanced.getJob (Enhanced.cancelJob stE id2).2 id2 = none) ∧
    (∀ (stE : Enhanced.SysState) (id2 : String),
      mapGet stE.scheduledJobs id2 = none →
        Enhanced.cancelJob stE id2 = (false, stE)) := by
  rcases Fixed.run_good_hist acts Fixed.initialState [] Fixed.GoodS_initial
    Fixed.Hist_initial with ⟨hgood, hhist⟩
  have hhist2 : Fixed.Hist (Fixed.runActs Fixed.initialState acts).1
      (Fixed.runActs Fixed.initialState acts).2 := by
    intro id2 k d hmem
    exact hhist id2 k d (by simpa using hmem)
  have hmem := mapGet_some_mem hlive
  rcases hgood.1 (id, j) hmem with ⟨⟨k0, hk0, hid0⟩, htmo⟩
  have hcancel := Fixed.cancelJob_some
    (Fixed.runActs Fixed.initialState acts).1 id j hlive
  have htimers : ∀ t ∈ (Fixed.cancelJob
      (Fixed.runActs Fixed.initialState acts).1 id).2.timers,
      t.jobId ≠ id := by
    intro t ht
    rw [hcancel] at ht
    have hp := (List.mem_filter.mp ht).2
    intro he
    rw [he, htmo] at hp
    simp at hp
  have hclean : Fixed.Clean id (Fixed.cancelJob
      (Fixed.runActs Fixed.initialState acts).1 id).2 := by
    refine ⟨htimers, ⟨k0, ?_, hid0⟩⟩
    rw [Fixed.cancelJob_nextId]
    exact hk0
  refine ⟨?_, ?_, htimers, ?_, ?_, ?_, ?_, ?_⟩
  · rw [hcancel]
  · rw [hcancel]
    show (mapGet (mapDelete
      ((Fixed.runActs Fixed.initialState acts).1).scheduledJobs id) id).map
        _ = none
    rw [mapGet_mapDelete_self]
    rfl
  · intro o ho k d
    intro he
    rw [he] at ho
    rcases hhist2 id k d ho with ⟨_, _, hjob⟩
    rw [hjob] at hlive
    exact Option.noConfusion hlive
  · exact (Fixed.Clean_runActs id acts2 _ hclean).2
  · intro st2 id2 h
    exact Fixed.cancelJob_none st2 id2 h
  · intro stE id2 j2 h
    constructor
    · rw [Enhanced.cancelJobE_some stE id2 j2 h]
    · rw [Enhanced.cancelJobE_some stE id2 j2 h]
      show (mapGet (mapDelete stE.scheduledJobs id2) id2).map _ = none
      rw [mapGet_mapDelete_self]
      rfl
  · intro stE id2 h
    exact Enhanced.cancelJobE_none stE id2 h

/-- Witness for C4: schedule one job, cancel it, then try to fire it. -/
theorem c4_cancel_before_fire_witness :
    (Fixed.cancelJob
      (Fixed.runActs Fixed.initialState [Fixed.Act.schedule pEx 0]).1
      "1").1 = true ∧
    Fixed.getJob
      (Fixed.cancelJob
        (Fixed.runActs Fixed.initialState [Fixed.Act.schedule pEx 0]).1
        "1").2 "1" = none ∧
    (∀ o ∈ (Fixed.runActs
        (Fixed.cancelJob
          (Fixed.runActs Fixed.initialState [Fixed.Act.schedule pEx 0]).1
          "1").2 [Fixed.Act.fire "1" Fixed.envAllOk]).2, ∀ k d,
      o ≠ Fixed.Out.attempted "1" k d) :=
  ⟨(c4_cancel_before_fire [Fixed.Act.schedule pEx 0]
      [Fixed.Act.fire "1" Fixed.envAllOk] "1" Fixed.jobEx (by decide)).1,
   (c4_cancel_before_fire [Fixed.Act.schedule pEx 0]
      [Fixed.Act.fire "1" Fixed.envAllOk] "1" Fixed.jobEx (by decide)).2.1,
   (c4_cancel_before_fire [Fixed.Act.schedule pEx 0]
      [Fixed.Act.fire "1" Fixed.envAllOk] "1" Fixed.jobEx
      (by decide)).2.2.2.2.1⟩
